import Mathlib

/-!
Verification of the score aggregation and recalculation engine of the
`better` daily goal-tracking application.

The embedding below is a shallow model of `apps/better/models.py` and
`apps/better/signals.py` (and, for the sleep/wake form, of
`apps/better/forms.py` together with the view code that drives it).
Database rows become list entries; Django's post-save / post-delete
signal dispatch becomes an explicit, fuel-bounded mutual recursion so
that (non-)termination of the recompute cascade is itself a provable
statement.
-/

/-- A row of the `Importance` model (`models.py`).  `score` is a
`PositiveIntegerField`; we model it as `Nat`. -/
structure Importance where
  id : Nat
  label : String
  score : Nat
deriving Repr, DecidableEq

/-- A row of the `Target` model.  `category` and `importance` are
non-nullable foreign keys, modelled by ids. -/
structure Target where
  id : Nat
  name : String
  categoryId : Nat
  importanceId : Nat
  is_achieved : Bool
  is_deleted : Bool
deriving Repr, DecidableEq

/-- A row of the `TargetCategory` model: cached `score` / `max_score`
are nullable (`Option Nat`). -/
structure TargetCategory where
  id : Nat
  dayId : Nat
  name : String
  description : String
  score : Option Nat
  max_score : Option Nat
  is_deleted : Bool
deriving Repr, DecidableEq

/-- A row of the `ScoreDay` model.  `day` is the calendar date,
modelled as a `Nat` ordinal; wake/sleep timestamps are minutes since
an epoch. -/
structure ScoreDay where
  id : Nat
  day : Nat
  score : Option Nat
  max_score : Option Nat
  wake_time : Option Nat
  sleep_time : Option Nat
  is_deleted : Bool
deriving Repr, DecidableEq

/-- The whole relational store. -/
structure DB where
  importances : List Importance
  days : List ScoreDay
  categories : List TargetCategory
  targets : List Target
deriving Repr, DecidableEq

/-- `Importance.get_max_score` (`models.py` lines 23-27): aggregate
`Max('score')` over all importance rows, `or 0` when there are none. -/
def getMaxScore (db : DB) : Nat :=
  (db.importances.map (·.score)).foldr Nat.max 0

/-- Foreign-key resolution `target.importance` (first row with the id). -/
def impScore (db : DB) (iid : Nat) : Nat :=
  match db.importances.find? (fun i => i.id == iid) with
  | some i => i.score
  | none => 0

/-- `self.targets.filter(is_deleted=False)` for a category id. -/
def activeTargets (db : DB) (cid : Nat) : List Target :=
  db.targets.filter (fun t => t.categoryId == cid && !t.is_deleted)

/-- `self.categories.filter(is_deleted=False)` for a day id. -/
def activeCategories (db : DB) (did : Nat) : List TargetCategory :=
  db.categories.filter (fun c => c.dayId == did && !c.is_deleted)

/-- Category lookup by primary key. -/
def DB.findCategory (db : DB) (cid : Nat) : Option TargetCategory :=
  db.categories.find? (fun c => c.id == cid)

/-- Day lookup by primary key. -/
def DB.findDay (db : DB) (did : Nat) : Option ScoreDay :=
  db.days.find? (fun d => d.id == did)

/-- The `score` value computed by `TargetCategory.calculate_scores`
(`models.py` lines 477-479): sum of `importance.score` over the
achieved, non-deleted targets. -/
def categoryScoreValue (db : DB) (cid : Nat) : Nat :=
  (((activeTargets db cid).filter (·.is_achieved)).map
    (fun t => impScore db t.importanceId)).sum

/-- The `max_score` value computed by `TargetCategory.calculate_scores`
(`models.py` lines 472-475): `target_count * Importance.get_max_score()`. -/
def categoryMaxValue (db : DB) (cid : Nat) : Nat :=
  (activeTargets db cid).length * getMaxScore db

/-- Row-level effect of writing cached scores onto the category with
the given id. -/
def updCat (cid : Nat) (s m : Nat) (c : TargetCategory) : TargetCategory :=
  if c.id == cid then { c with score := some s, max_score := some m } else c

/-- Row-level effect of writing cached scores onto the day with the
given id. -/
def updDay (did : Nat) (s m : Nat) (d : ScoreDay) : ScoreDay :=
  if d.id == did then { d with score := some s, max_score := some m } else d

/-- The field update performed by the narrow
`self.save(update_fields=['score', 'max_score', 'updated_at'])` at the
end of `TargetCategory.calculate_scores`. -/
def setCategoryScores (db : DB) (cid : Nat) (s m : Nat) : DB :=
  { db with categories := db.categories.map (updCat cid s m) }

/-- The field update performed by the narrow save at the end of
`ScoreDay.calculate_scores`. -/
def setDayScores (db : DB) (did : Nat) (s m : Nat) : DB :=
  { db with days := db.days.map (updDay did s m) }

/-- SQL `Sum` over a nullable column followed by `or 0`: nulls count
as zero. -/
def sumOpt (xs : List (Option Nat)) : Nat :=
  (xs.map (fun o => o.getD 0)).sum

/-- The `for category in categories: category.calculate_scores()`
loop inside `ScoreDay.calculate_scores`, abstracted over the recompute
call that the loop body makes. -/
def runCatList (f : DB → Nat → Option DB) (db : DB) (cids : List Nat) : Option DB :=
  match cids with
  | [] => some db
  | cid :: rest => (f db cid).bind (fun db1 => runCatList f db1 rest)

/-- One dispatch level of the recalculation engine, giving
(`TargetCategory.calculate_scores`, `ScoreDay.calculate_scores`)
*including* the signals their saves fire.

Category side (`models.py` lines 468-482): write the two cached
fields; the narrow save (`update_fields` non-empty) reaches
`target_category_post_save_handler` (`signals.py` lines 63-77), which
re-fires `day.calculate_scores()` exactly when the saved category
`is_deleted`, and nothing otherwise.

Day side (`models.py` lines 218-235): recompute every non-deleted
category, then store the aggregated `Sum` totals (`or 0`) with a
narrow save; `ScoreDay` has no post-save handler, so the day save
fires nothing.

`fuel` bounds the signal-dispatch depth; exhausting it yields `none`,
so a diverging dispatch chain is observable as `none` for every
fuel. -/
def engine : Nat → ((DB → Nat → Option DB) × (DB → Nat → Option DB))
  | 0 => (fun _ _ => none, fun _ _ => none)
  | fuel + 1 =>
    ((fun db cid =>
      match db.findCategory cid with
      | none => some db
      | some c =>
        let db1 := setCategoryScores db cid (categoryScoreValue db cid) (categoryMaxValue db cid)
        if c.is_deleted then (engine fuel).2 db1 c.dayId else some db1),
     (fun db did =>
      (runCatList (engine fuel).1 db ((activeCategories db did).map (·.id))).map
        (fun db1 =>
          setDayScores db1 did (sumOpt ((activeCategories db1 did).map (·.score)))
            (sumOpt ((activeCategories db1 did).map (·.max_score))))))

/-- `TargetCategory.calculate_scores` with its signal dispatch. -/
def calculate_scoresC (fuel : Nat) (db : DB) (cid : Nat) : Option DB :=
  (engine fuel).1 db cid

/-- `ScoreDay.calculate_scores` with its signal dispatch. -/
def calculate_scoresD (fuel : Nat) (db : DB) (did : Nat) : Option DB :=
  (engine fuel).2 db did

/-- The category loop at a given dispatch level. -/
def calcCatList (fuel : Nat) (db : DB) (cids : List Nat) : Option DB :=
  runCatList (engine fuel).1 db cids

theorem calculate_scoresC_succ (fuel : Nat) (db : DB) (cid : Nat) :
    calculate_scoresC (fuel + 1) db cid =
      match db.findCategory cid with
      | none => some db
      | some c =>
        if c.is_deleted then
          calculate_scoresD fuel
            (setCategoryScores db cid (categoryScoreValue db cid) (categoryMaxValue db cid))
            c.dayId
        else some (setCategoryScores db cid (categoryScoreValue db cid) (categoryMaxValue db cid)) := rfl

theorem calculate_scoresD_succ (fuel : Nat) (db : DB) (did : Nat) :
    calculate_scoresD (fuel + 1) db did =
      (calcCatList fuel db ((activeCategories db did).map (·.id))).map
        (fun db1 =>
          setDayScores db1 did (sumOpt ((activeCategories db1 did).map (·.score)))
            (sumOpt ((activeCategories db1 did).map (·.max_score)))) := rfl

theorem calcCatList_nil (fuel : Nat) (db : DB) : calcCatList fuel db [] = some db := rfl

theorem calcCatList_cons (fuel : Nat) (db : DB) (x : Nat) (rest : List Nat) :
    calcCatList fuel db (x :: rest) =
      (calculate_scoresC fuel db x).bind (fun db1 => calcCatList fuel db1 rest) := rfl

/-- Signal-free counterpart of `TargetCategory.calculate_scores`: just
the two cached fields written back. -/
def calcCategoryPure (db : DB) (cid : Nat) : DB :=
  setCategoryScores db cid (categoryScoreValue db cid) (categoryMaxValue db cid)

/-- Signal-free counterpart of the category loop. -/
def calcCatsPure (db : DB) (cids : List Nat) : DB :=
  cids.foldl (fun s cid => calcCategoryPure s cid) db

/-- Ids of the non-deleted categories of a day, the iteration order of
`ScoreDay.calculate_scores`. -/
def activeIds (db : DB) (did : Nat) : List Nat :=
  (activeCategories db did).map (·.id)

/-- Signal-free counterpart of `ScoreDay.calculate_scores`. -/
def calcDayPure (db : DB) (did : Nat) : DB :=
  setDayScores (calcCatsPure db (activeIds db did)) did
    (sumOpt ((activeCategories (calcCatsPure db (activeIds db did)) did).map (·.score)))
    (sumOpt ((activeCategories (calcCatsPure db (activeIds db did)) did).map (·.max_score)))

/-- Primary keys are unique per table, and the `day` date column is
unique (`ScoreDay.day` has `unique=True`). -/
def WF (db : DB) : Prop :=
  (db.categories.map (·.id)).Nodup ∧ (db.days.map (·.id)).Nodup ∧
    (db.targets.map (·.id)).Nodup ∧ (db.importances.map (·.id)).Nodup ∧
    (db.days.map (·.day)).Nodup

instance (db : DB) : Decidable (WF db) := by
  unfold WF; infer_instance

/-! ### Basic facts about the score writers -/

theorem updCat_id (cid s m : Nat) (c : TargetCategory) : (updCat cid s m c).id = c.id := by
  unfold updCat; split <;> rfl

theorem updCat_dayId (cid s m : Nat) (c : TargetCategory) : (updCat cid s m c).dayId = c.dayId := by
  unfold updCat; split <;> rfl

theorem updCat_name (cid s m : Nat) (c : TargetCategory) : (updCat cid s m c).name = c.name := by
  unfold updCat; split <;> rfl

theorem updCat_descr (cid s m : Nat) (c : TargetCategory) :
    (updCat cid s m c).description = c.description := by
  unfold updCat; split <;> rfl

theorem updCat_del (cid s m : Nat) (c : TargetCategory) :
    (updCat cid s m c).is_deleted = c.is_deleted := by
  unfold updCat; split <;> rfl

theorem updCat_eq_self (cid s m : Nat) (c : TargetCategory) (h : c.id ≠ cid) :
    updCat cid s m c = c := by
  unfold updCat
  simp [h]

theorem updCat_eq_upd (cid s m : Nat) (c : TargetCategory) (h : c.id = cid) :
    updCat cid s m c = { c with score := some s, max_score := some m } := by
  unfold updCat
  simp [h]

theorem updDay_id (did s m : Nat) (d : ScoreDay) : (updDay did s m d).id = d.id := by
  unfold updDay; split <;> rfl

theorem updDay_day (did s m : Nat) (d : ScoreDay) : (updDay did s m d).day = d.day := by
  unfold updDay; split <;> rfl

theorem updDay_del (did s m : Nat) (d : ScoreDay) :
    (updDay did s m d).is_deleted = d.is_deleted := by
  unfold updDay; split <;> rfl

theorem setCat_targets (db : DB) (cid s m : Nat) :
    (setCategoryScores db cid s m).targets = db.targets := rfl

theorem setCat_importances (db : DB) (cid s m : Nat) :
    (setCategoryScores db cid s m).importances = db.importances := rfl

theorem setCat_days (db : DB) (cid s m : Nat) :
    (setCategoryScores db cid s m).days = db.days := rfl

theorem setCat_categories (db : DB) (cid s m : Nat) :
    (setCategoryScores db cid s m).categories = db.categories.map (updCat cid s m) := rfl

theorem setDay_targets (db : DB) (did s m : Nat) :
    (setDayScores db did s m).targets = db.targets := rfl

theorem setDay_importances (db : DB) (did s m : Nat) :
    (setDayScores db did s m).importances = db.importances := rfl

theorem setDay_categories (db : DB) (did s m : Nat) :
    (setDayScores db did s m).categories = db.categories := rfl

theorem setDay_days (db : DB) (did s m : Nat) :
    (setDayScores db did s m).days = db.days.map (updDay did s m) := rfl

theorem getMaxScore_setCat (db : DB) (cid s m : Nat) :
    getMaxScore (setCategoryScores db cid s m) = getMaxScore db := rfl

theorem getMaxScore_setDay (db : DB) (did s m : Nat) :
    getMaxScore (setDayScores db did s m) = getMaxScore db := rfl

theorem activeTargets_setCat (db : DB) (cid s m x : Nat) :
    activeTargets (setCategoryScores db cid s m) x = activeTargets db x := rfl

theorem activeTargets_setDay (db : DB) (did s m x : Nat) :
    activeTargets (setDayScores db did s m) x = activeTargets db x := rfl

theorem categoryScoreValue_setCat (db : DB) (cid s m x : Nat) :
    categoryScoreValue (setCategoryScores db cid s m) x = categoryScoreValue db x := rfl

theorem categoryScoreValue_setDay (db : DB) (did s m x : Nat) :
    categoryScoreValue (setDayScores db did s m) x = categoryScoreValue db x := rfl

theorem categoryMaxValue_setCat (db : DB) (cid s m x : Nat) :
    categoryMaxValue (setCategoryScores db cid s m) x = categoryMaxValue db x := rfl

theorem categoryMaxValue_setDay (db : DB) (did s m x : Nat) :
    categoryMaxValue (setDayScores db did s m) x = categoryMaxValue db x := rfl

theorem activeCategories_setCat (db : DB) (cid s m did : Nat) :
    activeCategories (setCategoryScores db cid s m) did =
      (activeCategories db did).map (updCat cid s m) := by
  unfold activeCategories
  rw [setCat_categories, List.filter_map]
  congr 1
  apply List.filter_congr
  intro c _
  simp [Function.comp, updCat_dayId, updCat_del]

theorem activeCategories_setDay (db : DB) (did s m x : Nat) :
    activeCategories (setDayScores db did s m) x = activeCategories db x := rfl

/-! ### Characterizing the pure recompute folds -/

/-- Cumulative row-level effect of recomputing every category whose id
occurs in `cids`: the written values depend only on the targets and
importances of `db`, so the fold order is irrelevant. -/
def updAllCats (db : DB) (cids : List Nat) (c : TargetCategory) : TargetCategory :=
  if c.id ∈ cids then
    { c with score := some (categoryScoreValue db c.id),
             max_score := some (categoryMaxValue db c.id) }
  else c

theorem updAllCats_id (db : DB) (cids : List Nat) (c : TargetCategory) :
    (updAllCats db cids c).id = c.id := by
  unfold updAllCats; split <;> rfl

theorem updAllCats_dayId (db : DB) (cids : List Nat) (c : TargetCategory) :
    (updAllCats db cids c).dayId = c.dayId := by
  unfold updAllCats; split <;> rfl

theorem updAllCats_name (db : DB) (cids : List Nat) (c : TargetCategory) :
    (updAllCats db cids c).name = c.name := by
  unfold updAllCats; split <;> rfl

theorem updAllCats_descr (db : DB) (cids : List Nat) (c : TargetCategory) :
    (updAllCats db cids c).description = c.description := by
  unfold updAllCats; split <;> rfl

theorem updAllCats_del (db : DB) (cids : List Nat) (c : TargetCategory) :
    (updAllCats db cids c).is_deleted = c.is_deleted := by
  unfold updAllCats; split <;> rfl

theorem calcCatsPure_targets (cids : List Nat) (db : DB) :
    (calcCatsPure db cids).targets = db.targets := by
  induction cids generalizing db with
  | nil => rfl
  | cons x rest ih => simpa [calcCatsPure, List.foldl_cons] using ih (calcCategoryPure db x)

theorem calcCatsPure_importances (cids : List Nat) (db : DB) :
    (calcCatsPure db cids).importances = db.importances := by
  induction cids generalizing db with
  | nil => rfl
  | cons x rest ih => simpa [calcCatsPure, List.foldl_cons] using ih (calcCategoryPure db x)

theorem calcCatsPure_days (cids : List Nat) (db : DB) :
    (calcCatsPure db cids).days = db.days := by
  induction cids generalizing db with
  | nil => rfl
  | cons x rest ih => simpa [calcCatsPure, List.foldl_cons] using ih (calcCategoryPure db x)

theorem updAllCats_calcCategoryPure (db : DB) (x : Nat) (cids : List Nat) :
    updAllCats (calcCategoryPure db x) cids = updAllCats db cids := rfl

theorem updAllCats_comp (db : DB) (x : Nat) (rest : List Nat) (c : TargetCategory) :
    updAllCats db rest (updCat x (categoryScoreValue db x) (categoryMaxValue db x) c) =
      updAllCats db (x :: rest) c := by
  by_cases hx : c.id = x
  · rw [updCat_eq_upd _ _ _ _ hx]
    by_cases hr : c.id ∈ rest <;>
      simp [updAllCats, hx, hr]
  · rw [updCat_eq_self _ _ _ _ hx]
    by_cases hr : c.id ∈ rest <;>
      simp [updAllCats, hx, hr]

theorem calcCatsPure_categories (cids : List Nat) (db : DB) :
    (calcCatsPure db cids).categories = db.categories.map (updAllCats db cids) := by
  induction cids generalizing db with
  | nil =>
    unfold calcCatsPure
    rw [List.foldl_nil]
    have h : ∀ c ∈ db.categories, updAllCats db [] c = c := by
      intro c _
      simp [updAllCats]
    rw [List.map_congr_left h]
    simp
  | cons x rest ih =>
    have h1 : calcCatsPure db (x :: rest) = calcCatsPure (calcCategoryPure db x) rest := by
      simp [calcCatsPure, List.foldl_cons]
    rw [h1, ih, updAllCats_calcCategoryPure]
    have h2 : (calcCategoryPure db x).categories =
        db.categories.map (updCat x (categoryScoreValue db x) (categoryMaxValue db x)) := rfl
    rw [h2, List.map_map]
    apply List.map_congr_left
    intro c _
    exact updAllCats_comp db x rest c

/-- `day.score` as `ScoreDay.calculate_scores` stores it: the sum of
the freshly recomputed scores of the day's non-deleted categories. -/
def dayScoreValue (db : DB) (did : Nat) : Nat :=
  ((activeCategories db did).map (fun c => categoryScoreValue db c.id)).sum

/-- `day.max_score` as stored: sum of recomputed category max scores. -/
def dayMaxValue (db : DB) (did : Nat) : Nat :=
  ((activeCategories db did).map (fun c => categoryMaxValue db c.id)).sum

theorem activeCategories_calcCatsPure (db : DB) (cids : List Nat) (did : Nat) :
    activeCategories (calcCatsPure db cids) did =
      (activeCategories db did).map (updAllCats db cids) := by
  unfold activeCategories
  rw [calcCatsPure_categories, List.filter_map]
  congr 1
  apply List.filter_congr
  intro c _
  simp [Function.comp, updAllCats_dayId, updAllCats_del]

theorem calcDayPure_targets (db : DB) (did : Nat) :
    (calcDayPure db did).targets = db.targets := by
  unfold calcDayPure
  rw [setDay_targets, calcCatsPure_targets]

theorem calcDayPure_importances (db : DB) (did : Nat) :
    (calcDayPure db did).importances = db.importances := by
  unfold calcDayPure
  rw [setDay_importances, calcCatsPure_importances]

theorem calcDayPure_categories (db : DB) (did : Nat) :
    (calcDayPure db did).categories = db.categories.map (updAllCats db (activeIds db did)) := by
  unfold calcDayPure
  rw [setDay_categories, calcCatsPure_categories]

theorem calcDayPure_days (db : DB) (did : Nat) :
    (calcDayPure db did).days =
      db.days.map (updDay did (dayScoreValue db did) (dayMaxValue db did)) := by
  have hs : sumOpt (((activeCategories db did).map (updAllCats db (activeIds db did))).map
      (·.score)) = dayScoreValue db did := by
    unfold sumOpt dayScoreValue
    rw [List.map_map, List.map_map]
    congr 1
    apply List.map_congr_left
    intro c hc
    have hmem : c.id ∈ activeIds db did := List.mem_map_of_mem (·.id) hc
    simp [Function.comp, updAllCats, hmem]
  have hm : sumOpt (((activeCategories db did).map (updAllCats db (activeIds db did))).map
      (·.max_score)) = dayMaxValue db did := by
    unfold sumOpt dayMaxValue
    rw [List.map_map, List.map_map]
    congr 1
    apply List.map_congr_left
    intro c hc
    have hmem : c.id ∈ activeIds db did := List.mem_map_of_mem (·.id) hc
    simp [Function.comp, updAllCats, hmem]
  unfold calcDayPure
  rw [setDay_days, calcCatsPure_days, activeCategories_calcCatsPure, hs, hm]

/-! ### The signal semantics agrees with the pure semantics -/

theorem find?_map_of_pred {α : Type} (p : α → Bool) (f : α → α)
    (hf : ∀ c, p (f c) = p c) (l : List α) :
    (l.map f).find? p = (l.find? p).map f := by
  induction l with
  | nil => rfl
  | cons c rest ih =>
    by_cases h : p c
    · rw [List.map_cons, List.find?_cons_of_pos _ (by rw [hf]; exact h),
        List.find?_cons_of_pos _ h, Option.map_some']
    · rw [List.map_cons, List.find?_cons_of_neg _ (by rw [hf]; simpa using h),
        List.find?_cons_of_neg _ (by simpa using h), ih]

theorem findCategory_setCat (db : DB) (x s m cid : Nat) :
    (setCategoryScores db x s m).findCategory cid =
      (db.findCategory cid).map (updCat x s m) := by
  unfold DB.findCategory
  rw [setCat_categories]
  apply find?_map_of_pred
  intro c
  rw [updCat_id]

theorem findCategory_setDay (db : DB) (did s m cid : Nat) :
    (setDayScores db did s m).findCategory cid = db.findCategory cid := rfl

theorem setCat_of_findCategory_none (db : DB) (cid s m : Nat)
    (h : db.findCategory cid = none) : setCategoryScores db cid s m = db := by
  have h2 : ∀ c ∈ db.categories, updCat cid s m c = c := by
    intro c hc
    apply updCat_eq_self
    intro he
    have h3 := List.find?_eq_none.mp h c hc
    simp [he] at h3
  have h3 : db.categories.map (updCat cid s m) = db.categories := by
    rw [List.map_congr_left h2]
    simp
  unfold setCategoryScores
  rw [h3]

theorem calculate_scoresC_pure (fuel : Nat) (db : DB) (cid : Nat)
    (h : ∀ c, db.findCategory cid = some c → c.is_deleted = false) :
    calculate_scoresC (fuel + 1) db cid = some (calcCategoryPure db cid) := by
  rw [calculate_scoresC_succ]
  cases hf : db.findCategory cid with
  | none =>
    unfold calcCategoryPure
    rw [setCat_of_findCategory_none db cid _ _ hf]
  | some c =>
    have hd := h c hf
    simp [hd, calcCategoryPure]

theorem findCategory_calcCategoryPure (db : DB) (x cid : Nat) :
    (calcCategoryPure db x).findCategory cid =
      (db.findCategory cid).map (updCat x (categoryScoreValue db x) (categoryMaxValue db x)) :=
  findCategory_setCat db x _ _ cid

theorem calcCatList_pure (fuel : Nat) (cids : List Nat) (db : DB)
    (h : ∀ cid ∈ cids, ∀ c, db.findCategory cid = some c → c.is_deleted = false) :
    calcCatList (fuel + 1) db cids = some (calcCatsPure db cids) := by
  induction cids generalizing db with
  | nil => simp [calcCatList_nil, calcCatsPure]
  | cons x rest ih =>
    rw [calcCatList_cons, calculate_scoresC_pure fuel db x (h x (List.mem_cons_self x rest))]
    rw [Option.some_bind]
    have h1 : calcCatsPure db (x :: rest) = calcCatsPure (calcCategoryPure db x) rest := by
      simp [calcCatsPure, List.foldl_cons]
    rw [h1]
    apply ih
    intro cid hcid c hc
    rw [findCategory_calcCategoryPure] at hc
    cases hf : db.findCategory cid with
    | none => rw [hf] at hc; simp at hc
    | some c0 =>
      rw [hf] at hc
      simp only [Option.map_some'] at hc
      have hc2 : updCat x (categoryScoreValue db x) (categoryMaxValue db x) c0 = c :=
        Option.some.inj hc
      rw [← hc2, updCat_del]
      exact h cid (List.mem_cons_of_mem x hcid) c0 hf

/-- With unique category primary keys, every id taken from the
non-deleted category list of a day resolves back to a non-deleted row. -/
theorem activeIds_find_not_deleted (db : DB) (did : Nat)
    (hnd : (db.categories.map (·.id)).Nodup) :
    ∀ cid ∈ activeIds db did, ∀ c, db.findCategory cid = some c → c.is_deleted = false := by
  intro cid hcid c hc
  unfold DB.findCategory at hc
  unfold activeIds at hcid
  obtain ⟨a, ha, haid⟩ := List.mem_map.mp hcid
  have hamem : a ∈ db.categories := List.mem_of_mem_filter ha
  have hcmem : c ∈ db.categories := List.mem_of_find?_eq_some hc
  have hcpred := List.find?_some hc
  have hcid2 : c.id = cid := by simpa using hcpred
  have hac : a = c := List.inj_on_of_nodup_map hnd hamem hcmem (by rw [haid, hcid2])
  have hfa := List.of_mem_filter ha
  rw [← hac]
  simp at hfa
  exact hfa.2

theorem calculate_scoresD_pure (fuel : Nat) (db : DB) (did : Nat)
    (hnd : (db.categories.map (·.id)).Nodup) :
    calculate_scoresD (fuel + 2) db did = some (calcDayPure db did) := by
  rw [calculate_scoresD_succ (fuel + 1) db did]
  have h : ∀ cid ∈ (activeCategories db did).map (fun x => x.id), ∀ c,
      db.findCategory cid = some c → c.is_deleted = false :=
    activeIds_find_not_deleted db did hnd
  rw [calcCatList_pure fuel ((activeCategories db did).map (fun x => x.id)) db h]
  rfl

theorem catIds_setCat (db : DB) (x s m : Nat) :
    (setCategoryScores db x s m).categories.map (·.id) = db.categories.map (·.id) := by
  rw [setCat_categories, List.map_map]
  apply List.map_congr_left
  intro c _
  simp [Function.comp, updCat_id]

theorem catIds_calcCatsPure (cids : List Nat) (db : DB) :
    (calcCatsPure db cids).categories.map (·.id) = db.categories.map (·.id) := by
  rw [calcCatsPure_categories, List.map_map]
  apply List.map_congr_left
  intro c _
  simp [Function.comp, updAllCats_id]

theorem catIds_calcDayPure (db : DB) (did : Nat) :
    (calcDayPure db did).categories.map (·.id) = db.categories.map (·.id) := by
  rw [calcDayPure_categories, List.map_map]
  apply List.map_congr_left
  intro c _
  simp [Function.comp, updAllCats_id]

/-- Full one-step characterization of `TargetCategory.calculate_scores`
with its signal dispatch, for any category (deleted or not): fuel `3`
always suffices when category ids are unique. -/
theorem calculate_scoresC_total (fuel : Nat) (db : DB) (cid : Nat)
    (hnd : (db.categories.map (·.id)).Nodup) :
    calculate_scoresC (fuel + 3) db cid =
      some (match db.findCategory cid with
            | none => db
            | some c =>
              if c.is_deleted then calcDayPure (calcCategoryPure db cid) c.dayId
              else calcCategoryPure db cid) := by
  rw [calculate_scoresC_succ (fuel + 2) db cid]
  cases hf : db.findCategory cid with
  | none => simp
  | some c =>
    by_cases hd : c.is_deleted
    · simp only [hd, if_true]
      have hnd2 : ((calcCategoryPure db cid).categories.map (·.id)).Nodup := by
        unfold calcCategoryPure
        rw [catIds_setCat]
        exact hnd
      exact calculate_scoresD_pure fuel _ c.dayId hnd2
    · simp only [hd, if_false]
      rfl

/-! ### Stored-field accessors and lookup characterizations -/

/-- Cached `score` of the category row with the given id (`none` when
no such row exists). -/
def storedCatScore (db : DB) (cid : Nat) : Option (Option Nat) :=
  (db.findCategory cid).map (·.score)

/-- Cached `max_score` of the category row with the given id. -/
def storedCatMax (db : DB) (cid : Nat) : Option (Option Nat) :=
  (db.findCategory cid).map (·.max_score)

/-- Cached `score` of the day row with the given id. -/
def storedDayScore (db : DB) (did : Nat) : Option (Option Nat) :=
  (db.findDay did).map (·.score)

/-- Cached `max_score` of the day row with the given id. -/
def storedDayMax (db : DB) (did : Nat) : Option (Option Nat) :=
  (db.findDay did).map (·.max_score)

theorem findCategory_some_id (db : DB) (cid : Nat) (c : TargetCategory)
    (h : db.findCategory cid = some c) : c.id = cid := by
  unfold DB.findCategory at h
  have := List.find?_some h
  simpa using this

theorem findCategory_calcCategoryPure_self (db : DB) (cid : Nat) (c : TargetCategory)
    (h : db.findCategory cid = some c) :
    (calcCategoryPure db cid).findCategory cid =
      some { c with score := some (categoryScoreValue db cid),
                    max_score := some (categoryMaxValue db cid) } := by
  rw [findCategory_calcCategoryPure, h, Option.map_some']
  congr 1
  exact updCat_eq_upd _ _ _ _ (findCategory_some_id db cid c h)

theorem findCategory_calcDayPure (db : DB) (did cid : Nat) :
    (calcDayPure db did).findCategory cid =
      (db.findCategory cid).map (updAllCats db (activeIds db did)) := by
  unfold DB.findCategory
  rw [calcDayPure_categories]
  apply find?_map_of_pred
  intro c
  rw [updAllCats_id]

theorem updAllCats_not_mem (db : DB) (cids : List Nat) (c : TargetCategory)
    (h : c.id ∉ cids) : updAllCats db cids c = c := by
  unfold updAllCats
  simp [h]

theorem deleted_not_in_activeIds (db : DB) (did cid : Nat) (c : TargetCategory)
    (h : db.findCategory cid = some c) (hd : c.is_deleted = true)
    (hnd : (db.categories.map (·.id)).Nodup) : cid ∉ activeIds db did := by
  intro hmem
  have h2 := activeIds_find_not_deleted db did hnd cid hmem c h
  rw [hd] at h2
  exact Bool.noConfusion h2

theorem findDay_calcDayPure (db : DB) (did x : Nat) :
    (calcDayPure db did).findDay x =
      (db.findDay x).map (updDay did (dayScoreValue db did) (dayMaxValue db did)) := by
  unfold DB.findDay
  rw [calcDayPure_days]
  apply find?_map_of_pred
  intro d
  rw [updDay_id]

theorem findDay_some_id (db : DB) (did : Nat) (d : ScoreDay)
    (h : db.findDay did = some d) : d.id = did := by
  unfold DB.findDay at h
  have := List.find?_some h
  simpa using this

/-- The stored fields of an arbitrary category after
`TargetCategory.calculate_scores` ran with its signal dispatch: the
values of §4.1, whether or not the post-save handler re-fired a day
recompute. -/
theorem storedCat_after_calcC (db : DB) (cid : Nat) (c : TargetCategory) (db' : DB)
    (hnd : (db.categories.map (·.id)).Nodup)
    (hc : db.findCategory cid = some c)
    (hrun : calculate_scoresC 3 db cid = some db') :
    db'.findCategory cid =
      some { c with score := some (categoryScoreValue db cid),
                    max_score := some (categoryMaxValue db cid) } := by
  have htot := calculate_scoresC_total 0 db cid hnd
  rw [htot] at hrun
  rw [hc] at hrun
  by_cases hd : c.is_deleted
  · simp only [hd, if_true] at hrun
    have hdb' := Option.some.inj hrun
    subst hdb'
    rw [findCategory_calcDayPure]
    have hfind := findCategory_calcCategoryPure_self db cid c hc
    rw [hfind, Option.map_some']
    congr 1
    have hnd2 : ((calcCategoryPure db cid).categories.map (·.id)).Nodup := by
      unfold calcCategoryPure
      rw [catIds_setCat]
      exact hnd
    apply updAllCats_not_mem
    show c.id ∉ activeIds (calcCategoryPure db cid) c.dayId
    rw [findCategory_some_id db cid c hc]
    exact deleted_not_in_activeIds (calcCategoryPure db cid) c.dayId cid _ hfind
      (by simpa using hd) hnd2
  · simp only [hd, if_false] at hrun
    have hdb' := Option.some.inj hrun
    subst hdb'
    exact findCategory_calcCategoryPure_self db cid c hc

theorem calculate_scoresC_isSome (db : DB) (cid : Nat)
    (hnd : (db.categories.map (·.id)).Nodup) :
    (calculate_scoresC 3 db cid).isSome = true := by
  rw [calculate_scoresC_total 0 db cid hnd]
  rfl

theorem categoryScoreValue_of_no_targets (db : DB) (cid : Nat)
    (h : activeTargets db cid = []) : categoryScoreValue db cid = 0 := by
  unfold categoryScoreValue
  rw [h]
  rfl

/-! ### Claims C1 and C2: the per-category score formulas -/

/-- C1: for every category, recomputing its scores (with the signal
dispatch the save triggers) sets `max_score` to `N * M`, where `N` is
the number of its non-deleted targets and `M` is the global maximum
importance score — regardless of which importance levels the
category's own targets reference — and a category with zero
non-deleted targets gets `max_score = 0` and `score = 0`, not null. -/
theorem claimC1 (db : DB) (cid : Nat) (c : TargetCategory)
    (hWF : WF db) (hc : db.findCategory cid = some c) :
    ∃ db', calculate_scoresC 3 db cid = some db' ∧
      storedCatMax db' cid = some (some ((activeTargets db cid).length * getMaxScore db)) ∧
      storedCatScore db' cid = some (some (categoryScoreValue db cid)) ∧
      ((activeTargets db cid).length = 0 →
        storedCatMax db' cid = some (some 0) ∧ storedCatScore db' cid = some (some 0)) := by
  have hnd := hWF.1
  have hsome := calculate_scoresC_isSome db cid hnd
  obtain ⟨db', hrun⟩ := Option.isSome_iff_exists.mp hsome
  refine ⟨db', hrun, ?_, ?_, ?_⟩
  · unfold storedCatMax
    rw [storedCat_after_calcC db cid c db' hnd hc hrun]
    rfl
  · unfold storedCatScore
    rw [storedCat_after_calcC db cid c db' hnd hc hrun]
    rfl
  · intro hzero
    have hempty : activeTargets db cid = [] := List.length_eq_zero.mp hzero
    constructor
    · unfold storedCatMax
      rw [storedCat_after_calcC db cid c db' hnd hc hrun]
      simp [categoryMaxValue, hempty]
    · unfold storedCatScore
      rw [storedCat_after_calcC db cid c db' hnd hc hrun]
      simp [categoryScoreValue_of_no_targets db cid hempty]

/-- Sample store: one importance level High=5, one day, one category
with two non-deleted targets of which one is achieved. -/
def dbC1 : DB :=
  { importances := [⟨1, "High", 5⟩],
    days := [⟨1, 0, none, none, none, none, false⟩],
    categories := [⟨1, 1, "Health", "", none, none, false⟩],
    targets := [⟨1, "Run", 1, 1, true, false⟩, ⟨2, "Read", 1, 1, false, false⟩] }

theorem claimC1_witness :
    WF dbC1 ∧ dbC1.findCategory 1 = some ⟨1, 1, "Health", "", none, none, false⟩ ∧
      (activeTargets dbC1 1).length * getMaxScore dbC1 = 10 ∧
      categoryScoreValue dbC1 1 = 5 ∧
      (∃ db', calculate_scoresC 3 dbC1 1 = some db' ∧
        storedCatMax db' 1 = some (some ((activeTargets dbC1 1).length * getMaxScore dbC1)) ∧
        storedCatScore db' 1 = some (some (categoryScoreValue dbC1 1)) ∧
        ((activeTargets dbC1 1).length = 0 →
          storedCatMax db' 1 = some (some 0) ∧ storedCatScore db' 1 = some (some 0))) :=
  ⟨by decide, by decide, by decide, by decide,
    claimC1 dbC1 1 ⟨1, 1, "Health", "", none, none, false⟩ (by decide) (by decide)⟩

/-- C2: recomputing a category's scores sets `score` to the sum of
`importance.score` over its non-deleted, achieved targets; a target
with `is_deleted = true` contributes 0 to both the category's `score`
and its `max_score` even when `is_achieved = true`. -/
theorem claimC2 (db : DB) (cid : Nat) (c : TargetCategory) (t : Target)
    (hWF : WF db) (hc : db.findCategory cid = some c) (ht : t.is_deleted = true) :
    (∃ db', calculate_scoresC 3 db cid = some db' ∧
      storedCatScore db' cid =
        some (some ((((activeTargets db cid).filter (·.is_achieved)).map
          (fun u => impScore db u.importanceId)).sum))) ∧
    categoryScoreValue { db with targets := t :: db.targets } cid = categoryScoreValue db cid ∧
    categoryMaxValue { db with targets := t :: db.targets } cid = categoryMaxValue db cid := by
  have hnd := hWF.1
  refine ⟨?_, ?_, ?_⟩
  · have hsome := calculate_scoresC_isSome db cid hnd
    obtain ⟨db', hrun⟩ := Option.isSome_iff_exists.mp hsome
    refine ⟨db', hrun, ?_⟩
    unfold storedCatScore
    rw [storedCat_after_calcC db cid c db' hnd hc hrun]
    rfl
  · have hact : activeTargets { db with targets := t :: db.targets } cid =
        activeTargets db cid := by
      unfold activeTargets
      simp [ht]
    unfold categoryScoreValue
    rw [hact]
    rfl
  · have hact : activeTargets { db with targets := t :: db.targets } cid =
        activeTargets db cid := by
      unfold activeTargets
      simp [ht]
    unfold categoryMaxValue
    rw [hact]
    rfl

/-- A deleted-but-achieved target used by the C2 witness. -/
def tC2 : Target := ⟨3, "Ghost", 1, 1, true, true⟩

theorem claimC2_witness :
    WF dbC1 ∧ dbC1.findCategory 1 = some ⟨1, 1, "Health", "", none, none, false⟩ ∧
      tC2.is_deleted = true ∧
      ((∃ db', calculate_scoresC 3 dbC1 1 = some db' ∧
        storedCatScore db' 1 =
          some (some ((((activeTargets dbC1 1).filter (·.is_achieved)).map
            (fun u => impScore dbC1 u.importanceId)).sum))) ∧
      categoryScoreValue { dbC1 with targets := tC2 :: dbC1.targets } 1 =
        categoryScoreValue dbC1 1 ∧
      categoryMaxValue { dbC1 with targets := tC2 :: dbC1.targets } 1 =
        categoryMaxValue dbC1 1) :=
  ⟨by decide, by decide, by decide,
    claimC2 dbC1 1 ⟨1, 1, "Health", "", none, none, false⟩ tC2 (by decide) (by decide) (by decide)⟩

/-! ### Claim C3: the per-day bottom-up recompute -/

theorem updDay_eq_upd (did s m : Nat) (d : ScoreDay) (h : d.id = did) :
    updDay did s m d = { d with score := some s, max_score := some m } := by
  unfold updDay
  simp [h]

theorem activeCategories_calcDayPure (db : DB) (did x : Nat) :
    activeCategories (calcDayPure db did) x =
      (activeCategories db x).map (updAllCats db (activeIds db did)) := by
  unfold activeCategories
  rw [calcDayPure_categories, List.filter_map]
  congr 1
  apply List.filter_congr
  intro c _
  simp [Function.comp, updAllCats_dayId, updAllCats_del]

theorem sumOpt_scores_updAll (db : DB) (did : Nat) :
    sumOpt (((activeCategories db did).map (updAllCats db (activeIds db did))).map (·.score)) =
      dayScoreValue db did := by
  unfold sumOpt dayScoreValue
  rw [List.map_map, List.map_map]
  congr 1
  apply List.map_congr_left
  intro c hc
  have hmem : c.id ∈ activeIds db did := List.mem_map_of_mem (·.id) hc
  simp [Function.comp, updAllCats, hmem]

theorem sumOpt_max_updAll (db : DB) (did : Nat) :
    sumOpt (((activeCategories db did).map (updAllCats db (activeIds db did))).map (·.max_score)) =
      dayMaxValue db did := by
  unfold sumOpt dayMaxValue
  rw [List.map_map, List.map_map]
  congr 1
  apply List.map_congr_left
  intro c hc
  have hmem : c.id ∈ activeIds db did := List.mem_map_of_mem (·.id) hc
  simp [Function.comp, updAllCats, hmem]

theorem categoryScoreValue_congr (db1 db2 : DB) (ht : db1.targets = db2.targets)
    (hi : db1.importances = db2.importances) (x : Nat) :
    categoryScoreValue db1 x = categoryScoreValue db2 x := by
  unfold categoryScoreValue activeTargets impScore
  rw [ht, hi]

theorem categoryMaxValue_congr (db1 db2 : DB) (ht : db1.targets = db2.targets)
    (hi : db1.importances = db2.importances) (x : Nat) :
    categoryMaxValue db1 x = categoryMaxValue db2 x := by
  unfold categoryMaxValue activeTargets getMaxScore
  rw [ht, hi]

/-- C3: recomputing a day's scores first recomputes every non-deleted
category of that day (bottom-up), then stores `day.score`
(resp. `day.max_score`) as the sum of those categories' cached scores
(nulls as 0); a day with zero non-deleted categories gets 0, not null.
Every mutation the source reconciles ends by invoking this very
operation on the affected day(s) (`signals.py`,
`Target.toggle_achievement`, `soft_delete_with_targets`), so this
postcondition is exactly the reconciled state. -/
theorem claimC3 (db : DB) (did : Nat) (d : ScoreDay)
    (hWF : WF db) (hd : db.findDay did = some d) :
    ∃ db', calculate_scoresD 2 db did = some db' ∧
      storedDayScore db' did = some (some (sumOpt ((activeCategories db' did).map (·.score)))) ∧
      storedDayMax db' did = some (some (sumOpt ((activeCategories db' did).map (·.max_score)))) ∧
      (∀ c2 ∈ activeCategories db' did,
        c2.score = some (categoryScoreValue db' c2.id) ∧
        c2.max_score = some (categoryMaxValue db' c2.id)) ∧
      (activeCategories db did = [] →
        storedDayScore db' did = some (some 0) ∧ storedDayMax db' did = some (some 0)) := by
  have hnd := hWF.1
  have hrun : calculate_scoresD 2 db did = some (calcDayPure db did) :=
    calculate_scoresD_pure 0 db did hnd
  have hfind : (calcDayPure db did).findDay did =
      some { d with score := some (dayScoreValue db did),
                    max_score := some (dayMaxValue db did) } := by
    rw [findDay_calcDayPure, hd, Option.map_some',
      updDay_eq_upd did _ _ d (findDay_some_id db did d hd)]
  have hscore : storedDayScore (calcDayPure db did) did = some (some (dayScoreValue db did)) := by
    unfold storedDayScore
    rw [hfind]
    rfl
  have hmax : storedDayMax (calcDayPure db did) did = some (some (dayMaxValue db did)) := by
    unfold storedDayMax
    rw [hfind]
    rfl
  refine ⟨calcDayPure db did, hrun, ?_, ?_, ?_, ?_⟩
  · rw [hscore, activeCategories_calcDayPure, sumOpt_scores_updAll]
  · rw [hmax, activeCategories_calcDayPure, sumOpt_max_updAll]
  · intro c2 hc2
    rw [activeCategories_calcDayPure] at hc2
    obtain ⟨c0, hc0, hco⟩ := List.mem_map.mp hc2
    have hmem : c0.id ∈ activeIds db did := List.mem_map_of_mem (·.id) hc0
    have hup : updAllCats db (activeIds db did) c0 =
        { c0 with score := some (categoryScoreValue db c0.id),
                  max_score := some (categoryMaxValue db c0.id) } := by
      unfold updAllCats
      simp [hmem]
    subst hco
    rw [hup]
    constructor
    · show some (categoryScoreValue db c0.id) = some (categoryScoreValue (calcDayPure db did) c0.id)
      rw [categoryScoreValue_congr (calcDayPure db did) db (calcDayPure_targets db did)
        (calcDayPure_importances db did) c0.id]
    · show some (categoryMaxValue db c0.id) = some (categoryMaxValue (calcDayPure db did) c0.id)
      rw [categoryMaxValue_congr (calcDayPure db did) db (calcDayPure_targets db did)
        (calcDayPure_importances db did) c0.id]
  · intro hzero
    constructor
    · rw [hscore]
      unfold dayScoreValue
      rw [hzero]
      rfl
    · rw [hmax]
      unfold dayMaxValue
      rw [hzero]
      rfl

/-- Sample store for C3: one day with two categories (spec scenario:
expect day score 7 and day max 10 with High=5, Low=2). -/
def dbC3 : DB :=
  { importances := [⟨1, "High", 5⟩, ⟨2, "Low", 2⟩],
    days := [⟨1, 0, none, none, none, none, false⟩],
    categories := [⟨1, 1, "A", "", none, none, false⟩, ⟨2, 1, "B", "", none, none, false⟩],
    targets := [⟨1, "a", 1, 1, true, false⟩, ⟨2, "b", 2, 2, true, false⟩] }

theorem claimC3_witness :
    WF dbC3 ∧ dbC3.findDay 1 = some ⟨1, 0, none, none, none, none, false⟩ ∧
      dayScoreValue dbC3 1 = 7 ∧ dayMaxValue dbC3 1 = 10 ∧
      (∃ db', calculate_scoresD 2 dbC3 1 = some db' ∧
        storedDayScore db' 1 = some (some (sumOpt ((activeCategories db' 1).map (·.score)))) ∧
        storedDayMax db' 1 = some (some (sumOpt ((activeCategories db' 1).map (·.max_score)))) ∧
        (∀ c2 ∈ activeCategories db' 1,
          c2.score = some (categoryScoreValue db' c2.id) ∧
          c2.max_score = some (categoryMaxValue db' c2.id)) ∧
        (activeCategories dbC3 1 = [] →
          storedDayScore db' 1 = some (some 0) ∧ storedDayMax db' 1 = some (some 0))) :=
  ⟨by decide, by decide, by decide, by decide,
    claimC3 dbC3 1 ⟨1, 0, none, none, none, none, false⟩ (by decide) (by decide)⟩

/-! ### Claim C4: anti-recursion of the internal score saves -/

/-- A store holding one non-deleted day and one *deleted* category of
that day: recomputing this category's scores performs an internal
narrow save whose post-save handler (`signals.py` line 75-77, the
`elif instance.is_deleted` branch) re-fires a day recompute. -/
def dbC4 : DB :=
  { importances := [],
    days := [⟨1, 0, none, none, none, none, false⟩],
    categories := [⟨1, 1, "A", "", none, none, true⟩],
    targets := [] }

/-- C4 counterexample: against the claim that the narrow score-only
save never re-enters the trigger policy, recomputing the deleted
category of `dbC4` does more than the bare field update: its internal
save re-fires `day.calculate_scores()`, observable because the day's
cached score changes from null to 0, while the bare field update
(`calcCategoryPure`) leaves it null. -/
theorem claimC4_counterexample :
    calculate_scoresC 3 dbC4 1 ≠ some (calcCategoryPure dbC4 1) ∧
    (calculate_scoresC 3 dbC4 1).map (fun db' => storedDayScore db' 1) =
      some (some (some 0)) ∧
    storedDayScore (calcCategoryPure dbC4 1) 1 = some none := by
  decide

/-- C4 as amended: the internal narrow save of a *non-deleted*
category fires nothing (fuel 1 — a single dispatch level — already
suffices, and the result is exactly the bare field update); for a
deleted category the internal save re-fires one day recompute, but
every cascade still terminates: fuel 3 (resp. 2 at the day level)
suffices for any store with unique primary keys, and the result is
fuel-independent beyond that bound. -/
theorem claimC4 (fuel : Nat) (db : DB) (cid did : Nat) (c : TargetCategory)
    (hWF : WF db) (hc : db.findCategory cid = some c) :
    (c.is_deleted = false → calculate_scoresC 1 db cid = some (calcCategoryPure db cid)) ∧
    calculate_scoresC (fuel + 3) db cid = calculate_scoresC 3 db cid ∧
    (calculate_scoresC 3 db cid).isSome = true ∧
    calculate_scoresD (fuel + 2) db did = calculate_scoresD 2 db did ∧
    (calculate_scoresD 2 db did).isSome = true := by
  have hnd := hWF.1
  refine ⟨?_, ?_, ?_, ?_, ?_⟩
  · intro hdel
    apply calculate_scoresC_pure 0 db cid
    intro c' hc'
    rw [hc] at hc'
    rw [← Option.some.inj hc']
    exact hdel
  · rw [calculate_scoresC_total fuel db cid hnd, calculate_scoresC_total 0 db cid hnd]
  · exact calculate_scoresC_isSome db cid hnd
  · rw [calculate_scoresD_pure fuel db did hnd, calculate_scoresD_pure 0 db did hnd]
  · rw [calculate_scoresD_pure 0 db did hnd]
    rfl

/-- Store for the C4 witness: a non-deleted category with one achieved
target. -/
def dbC4w : DB :=
  { importances := [⟨1, "H", 3⟩],
    days := [⟨1, 0, none, none, none, none, false⟩],
    categories := [⟨1, 1, "A", "", none, none, false⟩],
    targets := [⟨1, "t", 1, 1, true, false⟩] }

theorem claimC4_witness :
    WF dbC4w ∧ dbC4w.findCategory 1 = some ⟨1, 1, "A", "", none, none, false⟩ ∧
      (((⟨1, 1, "A", "", none, none, false⟩ : TargetCategory).is_deleted = false →
          calculate_scoresC 1 dbC4w 1 = some (calcCategoryPure dbC4w 1)) ∧
        calculate_scoresC (2 + 3) dbC4w 1 = calculate_scoresC 3 dbC4w 1 ∧
        (calculate_scoresC 3 dbC4w 1).isSome = true ∧
        calculate_scoresD (2 + 2) dbC4w 1 = calculate_scoresD 2 dbC4w 1 ∧
        (calculate_scoresD 2 dbC4w 1).isSome = true) :=
  ⟨by decide, by decide,
    claimC4 2 dbC4w 1 1 ⟨1, 1, "A", "", none, none, false⟩ (by decide) (by decide)⟩

/-! ### Claim C5: target soft-delete and the post-save handler -/

/-- `Target.save()` persistence: update the row with the same primary
key when it exists, insert otherwise. -/
def putTarget (db : DB) (t : Target) : DB :=
  if db.targets.any (fun u => u.id == t.id) then
    { db with targets := db.targets.map (fun u => if u.id == t.id then t else u) }
  else { db with targets := db.targets ++ [t] }

/-- `target_post_save_handler` (`signals.py` lines 7-19): only when
the saved instance is not deleted, recompute its category and then
that category's day.  The category foreign key is non-nullable, so a
missing row cannot arise from the ORM; we make that case a no-op. -/
def target_post_save_handler (fuel : Nat) (db : DB) (t : Target) : Option DB :=
  if t.is_deleted then some db
  else
    match db.findCategory t.categoryId with
    | none => some db
    | some c =>
      (calculate_scoresC fuel db t.categoryId).bind
        (fun db1 => calculate_scoresD fuel db1 c.dayId)

/-- A full `Target.save()`: persist the row, then fire the post-save
signal. -/
def saveTarget (fuel : Nat) (db : DB) (t : Target) : Option DB :=
  target_post_save_handler fuel (putTarget db t) t

/-- Store for the C5 counterexample: the achieved target 1 is counted
in the cached scores (category and day both cache 5). -/
def dbC5 : DB :=
  { importances := [⟨1, "High", 5⟩],
    days := [⟨1, 0, some 5, some 5, none, none, false⟩],
    categories := [⟨1, 1, "A", "", some 5, some 5, false⟩],
    targets := [⟨1, "t", 1, 1, true, false⟩] }

/-- Target 1 of `dbC5` being saved with `is_deleted` set true. -/
def tC5 : Target := ⟨1, "t", 1, 1, true, true⟩

/-- C5 counterexample: soft-deleting target 1 of `dbC5` (saving it
with `is_deleted=true`) does NOT fire recalculation — the handler's
`if not instance.is_deleted` guard skips it — so at the moment the
soft-delete completes the category and day still cache score 5 even
though the freshly computed value excluding the target is 0. -/
theorem claimC5_counterexample :
    (saveTarget 9 dbC5 tC5).map (fun db1 => storedCatScore db1 1) = some (some (some 5)) ∧
    (saveTarget 9 dbC5 tC5).map (fun db1 => storedDayScore db1 1) = some (some (some 5)) ∧
    (saveTarget 9 dbC5 tC5).map (fun db1 => categoryScoreValue db1 1) = some 0 ∧
    saveTarget 9 dbC5 tC5 = some (putTarget dbC5 tC5) := by
  decide

/-- C5 as amended: saving a target whose `is_deleted` is true performs
no recalculation at all — the resulting store is exactly the persisted
row, for every fuel — so the excluded target keeps contributing to the
cached scores until some other operation recomputes them.
Recalculation fires only when the saved target is not deleted. -/
theorem claimC5 (fuel : Nat) (db : DB) (t : Target) (ht : t.is_deleted = true) :
    saveTarget fuel db t = some (putTarget db t) := by
  unfold saveTarget target_post_save_handler
  rw [ht]
  rfl

theorem claimC5_witness :
    tC5.is_deleted = true ∧ saveTarget 9 dbC5 tC5 = some (putTarget dbC5 tC5) :=
  ⟨by decide, claimC5 9 dbC5 tC5 (by decide)⟩

/-! ### Claim C6: the importance fan-out -/

/-- `Importance.save()` persistence: update or insert the row. -/
def putImportance (db : DB) (imp : Importance) : DB :=
  if db.importances.any (fun i => i.id == imp.id) then
    { db with importances := db.importances.map (fun i => if i.id == imp.id then imp else i) }
  else { db with importances := db.importances ++ [imp] }

/-- `ScoreDay.objects.filter(is_deleted=False)`, by id. -/
def activeDayIds (db : DB) : List Nat :=
  (db.days.filter (fun d => !d.is_deleted)).map (·.id)

/-- The `for score_day in ...: score_day.calculate_scores()` loop of
the importance signal handlers. -/
def calcDayList (fuel : Nat) (db : DB) (dids : List Nat) : Option DB :=
  match dids with
  | [] => some db
  | did :: rest => (calculate_scoresD fuel db did).bind (fun db1 => calcDayList fuel db1 rest)

/-- `importance_post_save_handler` (`signals.py` lines 39-48):
recompute every non-deleted day.  `importance_post_delete_handler`
(lines 51-60) has the identical body. -/
def importanceFanOut (fuel : Nat) (db : DB) : Option DB :=
  calcDayList fuel db (activeDayIds db)

/-- A full `Importance.save()`: persist, then fire the post-save
fan-out. -/
def saveImportance (fuel : Nat) (db : DB) (imp : Importance) : Option DB :=
  importanceFanOut fuel (putImportance db imp)

/-- Signal-free counterpart of the fan-out loop. -/
def foldDaysPure (db : DB) (dids : List Nat) : DB :=
  dids.foldl (fun s did => calcDayPure s did) db

theorem calcDayList_pure (fuel : Nat) (dids : List Nat) (db : DB)
    (hnd : (db.categories.map (·.id)).Nodup) :
    calcDayList (fuel + 2) db dids = some (foldDaysPure db dids) := by
  induction dids generalizing db with
  | nil => rfl
  | cons x rest ih =>
    have hstep : calcDayList (fuel + 2) db (x :: rest) =
        (calculate_scoresD (fuel + 2) db x).bind
          (fun db1 => calcDayList (fuel + 2) db1 rest) := rfl
    rw [hstep, calculate_scoresD_pure fuel db x hnd, Option.some_bind]
    have hfold : foldDaysPure db (x :: rest) = foldDaysPure (calcDayPure db x) rest := by
      simp [foldDaysPure]
    rw [hfold]
    apply ih
    rw [catIds_calcDayPure]
    exact hnd

theorem foldDaysPure_targets (dids : List Nat) (db : DB) :
    (foldDaysPure db dids).targets = db.targets := by
  induction dids generalizing db with
  | nil => rfl
  | cons x rest ih =>
    have hfold : foldDaysPure db (x :: rest) = foldDaysPure (calcDayPure db x) rest := by
      simp [foldDaysPure]
    rw [hfold, ih, calcDayPure_targets]

theorem foldDaysPure_importances (dids : List Nat) (db : DB) :
    (foldDaysPure db dids).importances = db.importances := by
  induction dids generalizing db with
  | nil => rfl
  | cons x rest ih =>
    have hfold : foldDaysPure db (x :: rest) = foldDaysPure (calcDayPure db x) rest := by
      simp [foldDaysPure]
    rw [hfold, ih, calcDayPure_importances]

theorem activeIds_calcDayPure (db : DB) (did x : Nat) :
    activeIds (calcDayPure db did) x = activeIds db x := by
  unfold activeIds
  rw [activeCategories_calcDayPure, List.map_map]
  apply List.map_congr_left
  intro c _
  simp [Function.comp, updAllCats_id]

theorem updAllCats_congr (db1 db2 : DB) (ht : db1.targets = db2.targets)
    (hi : db1.importances = db2.importances) (S : List Nat) (c : TargetCategory) :
    updAllCats db1 S c = updAllCats db2 S c := by
  unfold updAllCats
  rw [categoryScoreValue_congr db1 db2 ht hi, categoryMaxValue_congr db1 db2 ht hi]

theorem updAllCats_append (db : DB) (S T : List Nat) (c : TargetCategory) :
    updAllCats db T (updAllCats db S c) = updAllCats db (S ++ T) c := by
  by_cases hs : c.id ∈ S
  · by_cases ht : c.id ∈ T <;> simp [updAllCats, hs, ht]
  · by_cases ht : c.id ∈ T <;> simp [updAllCats, hs, ht]

/-- All category ids touched by recomputing the listed days. -/
def allIds (db : DB) (dids : List Nat) : List Nat :=
  dids.foldr (fun did acc => activeIds db did ++ acc) []

theorem allIds_calcDayPure (db : DB) (x : Nat) (dids : List Nat) :
    allIds (calcDayPure db x) dids = allIds db dids := by
  induction dids with
  | nil => rfl
  | cons y rest ih =>
    show activeIds (calcDayPure db x) y ++ allIds (calcDayPure db x) rest =
      activeIds db y ++ allIds db rest
    rw [activeIds_calcDayPure, ih]

theorem foldDaysPure_categories (dids : List Nat) (db : DB) :
    (foldDaysPure db dids).categories = db.categories.map (updAllCats db (allIds db dids)) := by
  induction dids generalizing db with
  | nil =>
    have h : ∀ c ∈ db.categories, updAllCats db [] c = c := by
      intro c _
      simp [updAllCats]
    show db.categories = db.categories.map (updAllCats db [])
    rw [List.map_congr_left h]
    simp
  | cons x rest ih =>
    have hfold : foldDaysPure db (x :: rest) = foldDaysPure (calcDayPure db x) rest := by
      simp [foldDaysPure]
    rw [hfold, ih, allIds_calcDayPure, calcDayPure_categories, List.map_map]
    apply List.map_congr_left
    intro c _
    show updAllCats (calcDayPure db x) (allIds db rest)
        (updAllCats db (activeIds db x) c) = updAllCats db (allIds db (x :: rest)) c
    rw [updAllCats_congr (calcDayPure db x) db (calcDayPure_targets db x)
      (calcDayPure_importances db x), updAllCats_append]
    rfl

/-- Cumulative row-level effect of recomputing the listed days. -/
def updAllDays (db : DB) (dids : List Nat) (d : ScoreDay) : ScoreDay :=
  if d.id ∈ dids then
    { d with score := some (dayScoreValue db d.id), max_score := some (dayMaxValue db d.id) }
  else d

theorem updAllDays_id (db : DB) (dids : List Nat) (d : ScoreDay) :
    (updAllDays db dids d).id = d.id := by
  unfold updAllDays; split <;> rfl

theorem updAllDays_del (db : DB) (dids : List Nat) (d : ScoreDay) :
    (updAllDays db dids d).is_deleted = d.is_deleted := by
  unfold updAllDays; split <;> rfl

theorem dayScoreValue_calcDayPure (db : DB) (y x : Nat) :
    dayScoreValue (calcDayPure db y) x = dayScoreValue db x := by
  unfold dayScoreValue
  rw [activeCategories_calcDayPure, List.map_map]
  congr 1
  apply List.map_congr_left
  intro c _
  show categoryScoreValue (calcDayPure db y) (updAllCats db (activeIds db y) c).id =
    categoryScoreValue db c.id
  rw [updAllCats_id,
    categoryScoreValue_congr (calcDayPure db y) db (calcDayPure_targets db y)
      (calcDayPure_importances db y)]

theorem dayMaxValue_calcDayPure (db : DB) (y x : Nat) :
    dayMaxValue (calcDayPure db y) x = dayMaxValue db x := by
  unfold dayMaxValue
  rw [activeCategories_calcDayPure, List.map_map]
  congr 1
  apply List.map_congr_left
  intro c _
  show categoryMaxValue (calcDayPure db y) (updAllCats db (activeIds db y) c).id =
    categoryMaxValue db c.id
  rw [updAllCats_id,
    categoryMaxValue_congr (calcDayPure db y) db (calcDayPure_targets db y)
      (calcDayPure_importances db y)]

theorem updAllDays_calcDayPure (db : DB) (x : Nat) (dids : List Nat) (d : ScoreDay) :
    updAllDays (calcDayPure db x) dids d = updAllDays db dids d := by
  unfold updAllDays
  rw [dayScoreValue_calcDayPure, dayMaxValue_calcDayPure]

theorem updAllDays_comp (db : DB) (x : Nat) (rest : List Nat) (d : ScoreDay) :
    updAllDays db rest (updDay x (dayScoreValue db x) (dayMaxValue db x) d) =
      updAllDays db (x :: rest) d := by
  by_cases hx : d.id = x
  · rw [updDay_eq_upd _ _ _ _ hx]
    by_cases hr : d.id ∈ rest <;>
      simp [updAllDays, hx, hr]
  · have : updDay x (dayScoreValue db x) (dayMaxValue db x) d = d := by
      unfold updDay
      simp [hx]
    rw [this]
    by_cases hr : d.id ∈ rest <;>
      simp [updAllDays, hx, hr]

theorem foldDaysPure_days (dids : List Nat) (db : DB) :
    (foldDaysPure db dids).days = db.days.map (updAllDays db dids) := by
  induction dids generalizing db with
  | nil =>
    have h : ∀ d ∈ db.days, updAllDays db [] d = d := by
      intro d _
      simp [updAllDays]
    show db.days = db.days.map (updAllDays db [])
    rw [List.map_congr_left h]
    simp
  | cons x rest ih =>
    have hfold : foldDaysPure db (x :: rest) = foldDaysPure (calcDayPure db x) rest := by
      simp [foldDaysPure]
    rw [hfold, ih, calcDayPure_days, List.map_map]
    apply List.map_congr_left
    intro d _
    show updAllDays (calcDayPure db x) rest (updDay x (dayScoreValue db x) (dayMaxValue db x) d) =
      updAllDays db (x :: rest) d
    rw [updAllDays_calcDayPure, updAllDays_comp]

theorem activeCategories_foldDaysPure (db : DB) (dids : List Nat) (y : Nat) :
    activeCategories (foldDaysPure db dids) y =
      (activeCategories db y).map (updAllCats db (allIds db dids)) := by
  unfold activeCategories
  rw [foldDaysPure_categories, List.filter_map]
  congr 1
  apply List.filter_congr
  intro c _
  simp [Function.comp, updAllCats_dayId, updAllCats_del]

theorem mem_allIds (db : DB) (dids : List Nat) (did : Nat) (h : did ∈ dids) (cid : Nat)
    (hc : cid ∈ activeIds db did) : cid ∈ allIds db dids := by
  induction dids with
  | nil => cases h
  | cons y rest ih =>
    show cid ∈ activeIds db y ++ allIds db rest
    rcases List.mem_cons.mp h with h1 | h1
    · subst h1
      exact List.mem_append_left _ hc
    · exact List.mem_append_right _ (ih h1)

theorem activeTargets_congr (db1 db2 : DB) (ht : db1.targets = db2.targets) (x : Nat) :
    activeTargets db1 x = activeTargets db2 x := by
  unfold activeTargets
  rw [ht]

theorem getMaxScore_congr (db1 db2 : DB) (hi : db1.importances = db2.importances) :
    getMaxScore db1 = getMaxScore db2 := by
  unfold getMaxScore
  rw [hi]

/-- Postcondition of the full fan-out (`importance_post_save_handler`
and `importance_post_delete_handler` share this body): every
non-deleted category of every non-deleted day is recomputed. -/
theorem fanOut_max_formula (fuel : Nat) (db : DB) (hnd : (db.categories.map (·.id)).Nodup) :
    ∃ db', importanceFanOut (fuel + 2) db = some db' ∧
      db'.importances = db.importances ∧ db'.targets = db.targets ∧
      ∀ d ∈ db'.days, d.is_deleted = false →
        ∀ c ∈ activeCategories db' d.id,
          c.max_score = some ((activeTargets db' c.id).length * getMaxScore db') ∧
          c.score = some (categoryScoreValue db' c.id) := by
  set dids := activeDayIds db with hdids
  have hrun : importanceFanOut (fuel + 2) db = some (foldDaysPure db dids) := by
    unfold importanceFanOut
    exact calcDayList_pure fuel dids db hnd
  set db' := foldDaysPure db dids with hdb'
  have hti : db'.targets = db.targets := foldDaysPure_targets dids db
  have hii : db'.importances = db.importances := foldDaysPure_importances dids db
  refine ⟨db', hrun, hii, hti, ?_⟩
  intro d hd hdel c hc
  rw [hdb', foldDaysPure_days] at hd
  obtain ⟨d0, hd0, hdd⟩ := List.mem_map.mp hd
  have hdel0 : d0.is_deleted = false := by
    rw [← updAllDays_del db dids d0, hdd]
    exact hdel
  have hdid : d.id = d0.id := by
    rw [← hdd, updAllDays_id]
  have hmemdid : d0.id ∈ dids := by
    rw [hdids]
    unfold activeDayIds
    apply List.mem_map_of_mem
    apply List.mem_filter.mpr
    exact ⟨hd0, by simp [hdel0]⟩
  rw [hdb', activeCategories_foldDaysPure, hdid] at hc
  obtain ⟨c0, hc0, hcc⟩ := List.mem_map.mp hc
  have hcid : c0.id ∈ activeIds db d0.id := List.mem_map_of_mem (·.id) hc0
  have hmem : c0.id ∈ allIds db dids := mem_allIds db dids d0.id hmemdid c0.id hcid
  have hup : updAllCats db (allIds db dids) c0 =
      { c0 with score := some (categoryScoreValue db c0.id),
                max_score := some (categoryMaxValue db c0.id) } := by
    unfold updAllCats
    simp [hmem]
  subst hcc
  rw [hup]
  constructor
  · show some (categoryMaxValue db c0.id) =
      some ((activeTargets db' c0.id).length * getMaxScore db')
    rw [activeTargets_congr db' db hti, getMaxScore_congr db' db hii]
    rfl
  · show some (categoryScoreValue db c0.id) =
      some (categoryScoreValue db' c0.id)
    rw [categoryScoreValue_congr db' db hti hii]

/-- C6: whenever an ImportanceLevel is saved (created or updated),
every non-deleted day is recomputed bottom-up, so afterwards every
non-deleted category of every non-deleted day caches
`max_score = N * M` with `M` the (new) global maximum importance
score; a category with zero non-deleted targets stays at `max_score
0`; and for `N ≥ 1` two different global maxima give different
`N * M`, so a change of the maximum changes every such category's
`max_score`. -/
theorem claimC6 (db0 : DB) (imp : Importance) (hWF : WF (putImportance db0 imp)) :
    ∃ db', saveImportance 2 db0 imp = some db' ∧
      db'.importances = (putImportance db0 imp).importances ∧
      db'.targets = (putImportance db0 imp).targets ∧
      (∀ d ∈ db'.days, d.is_deleted = false →
        ∀ c ∈ activeCategories db' d.id,
          c.max_score = some ((activeTargets db' c.id).length * getMaxScore db') ∧
          c.score = some (categoryScoreValue db' c.id) ∧
          ((activeTargets db' c.id).length = 0 → c.max_score = some (0 * getMaxScore db'))) ∧
      (∀ n m1 m2 : Nat, 0 < n → m1 ≠ m2 → n * m1 ≠ n * m2) := by
  obtain ⟨db', hrun0, hii, hti, hmain⟩ := fanOut_max_formula 0 (putImportance db0 imp) hWF.1
  refine ⟨db', hrun0, hii, hti, ?_, ?_⟩
  · intro d hd hdel c hc
    obtain ⟨h1, h2⟩ := hmain d hd hdel c hc
    refine ⟨h1, h2, ?_⟩
    intro hzero
    rw [hzero] at h1
    exact h1
  · intro n m1 m2 hn hne heq
    exact hne (Nat.eq_of_mul_eq_mul_left hn heq)

/-- Store for the C6 witness: a day with a one-target category and a
day with an empty category; the saved importance raises the global
maximum from 5 to 7. -/
def dbC6 : DB :=
  { importances := [⟨1, "High", 5⟩],
    days := [⟨1, 0, some 5, some 5, none, none, false⟩,
             ⟨2, 1, some 0, some 0, none, none, false⟩],
    categories := [⟨1, 1, "A", "", some 5, some 5, false⟩,
                   ⟨2, 2, "B", "", some 0, some 0, false⟩],
    targets := [⟨1, "t", 1, 1, true, false⟩] }

/-- The updated importance row saved in the C6 witness. -/
def impC6 : Importance := ⟨1, "High", 7⟩

theorem claimC6_witness :
    WF (putImportance dbC6 impC6) ∧ getMaxScore (putImportance dbC6 impC6) = 7 ∧
      (∃ db', saveImportance 2 dbC6 impC6 = some db' ∧
        db'.importances = (putImportance dbC6 impC6).importances ∧
        db'.targets = (putImportance dbC6 impC6).targets ∧
        (∀ d ∈ db'.days, d.is_deleted = false →
          ∀ c ∈ activeCategories db' d.id,
            c.max_score = some ((activeTargets db' c.id).length * getMaxScore db') ∧
            c.score = some (categoryScoreValue db' c.id) ∧
            ((activeTargets db' c.id).length = 0 →
              c.max_score = some (0 * getMaxScore db'))) ∧
        (∀ n m1 m2 : Nat, 0 < n → m1 ≠ m2 → n * m1 ≠ n * m2)) :=
  ⟨by decide, by decide, claimC6 dbC6 impC6 (by decide)⟩

/-! ### Claim C7: the importance deletion guard -/

/-- `Target.objects.filter(importance=self, is_deleted=False).count()`
(`models.py` lines 104-107). -/
def referencedCount (db : DB) (imp : Importance) : Nat :=
  (db.targets.filter (fun t => t.importanceId == imp.id && !t.is_deleted)).length

/-- The "level in use" error message of `Importance.can_be_deleted`. -/
def errInUse (lbl : String) (cnt : Nat) : String :=
  s!"Cannot delete importance level \"{lbl}\" because it is being used by {cnt} target(s). Please reassign or delete those targets first."

/-- The success message of `Importance.delete_with_message`. -/
def delSuccess (lbl : String) (sc : Nat) : String :=
  s!"Importance level \"{lbl}\" (score: {sc}) has been deleted successfully. All scores have been recalculated automatically."

/-- `Importance.can_be_deleted` (`models.py` lines 102-116). -/
def can_be_deleted (db : DB) (imp : Importance) : Bool × Option String :=
  if 0 < referencedCount db imp then
    (false, some (errInUse imp.label (referencedCount db imp)))
  else (true, none)

/-- The row-level effect of `self.delete()` on an importance: the
importance row goes away, and the ORM delete collector cascades over
`Target.importance` (`on_delete=models.CASCADE`, `models.py` line
626), hard-deleting every target row that references the level —
soft-deleted rows included, since the cascade is a row-level FK
collection with no `is_deleted` filter. -/
def removeImportance (db : DB) (iid : Nat) : DB :=
  { db with importances := db.importances.filter (fun i => !(i.id == iid)),
            targets := db.targets.filter (fun t => !(t.importanceId == iid)) }

/-- `target_post_delete_handler` (`signals.py` lines 22-36): after a
target row is hard-deleted, if its `category_id` is truthy, fetch the
category by id (no `is_deleted` filter; `DoesNotExist` is swallowed)
and recompute it and then its day. -/
def target_post_delete_handler (fuel : Nat) (db : DB) (t : Target) : Option DB :=
  if t.categoryId == 0 then some db
  else
    match db.findCategory t.categoryId with
    | none => some db
    | some c =>
      (calculate_scoresC fuel db t.categoryId).bind
        (fun db1 => calculate_scoresD fuel db1 c.dayId)

/-- The `post_delete` signals of a batch of hard-deleted target rows,
fired in collection order. -/
def runTargetPostDeletes (fuel : Nat) (db : DB) (ts : List Target) : Option DB :=
  match ts with
  | [] => some db
  | t :: rest =>
    (target_post_delete_handler fuel db t).bind
      (fun db1 => runTargetPostDeletes fuel db1 rest)

/-- `self.delete()` on an importance with full ORM semantics
(`models.py` line 130): the delete collector gathers every `Target`
row referencing the level (`Target.importance` is
`on_delete=models.CASCADE`, `models.py` line 626), deletes that batch
first and then sends each collected row's `post_delete`
(`target_post_delete_handler`, with the importance row still
present), and only then deletes the importance row itself, sending
its `post_delete` (`importance_post_delete_handler`, `signals.py`
lines 51-60: the full fan-out). -/
def deleteImportance (fuel : Nat) (db : DB) (iid : Nat) : Option DB :=
  (runTargetPostDeletes fuel
      { db with targets := db.targets.filter (fun t => !(t.importanceId == iid)) }
      (db.targets.filter (fun t => t.importanceId == iid))).bind
    (fun db1 =>
      importanceFanOut fuel
        { db1 with importances := db1.importances.filter (fun i => !(i.id == iid)) })

/-- `Importance.delete_with_message` (`models.py` lines 118-134): the
guard first; only on a pass does `self.delete()` run, with its FK
cascade and signals. -/
def delete_with_message (fuel : Nat) (db : DB) (imp : Importance) :
    Option (Bool × Option String × DB) :=
  match can_be_deleted db imp with
  | (false, msg) => some (false, msg, db)
  | (true, _) =>
    (deleteImportance fuel db imp.id).map
      (fun db2 => (true, some (delSuccess imp.label imp.score), db2))

theorem catIds_calcCategoryPure (db : DB) (cid : Nat) :
    (calcCategoryPure db cid).categories.map (·.id) = db.categories.map (·.id) := by
  unfold calcCategoryPure
  rw [catIds_setCat]

/-- With a zero non-deleted reference count, every target row
referencing the level is soft-deleted. -/
theorem referencedCount_zero (db : DB) (imp : Importance)
    (h : referencedCount db imp = 0) :
    ∀ t ∈ db.targets, t.importanceId = imp.id → t.is_deleted = true := by
  intro t ht hid
  unfold referencedCount at h
  have h2 := List.filter_eq_nil_iff.mp (List.length_eq_zero.mp h) t ht
  simp [hid] at h2
  exact h2

/-- `target_post_delete_handler` always terminates at fuel 3 when
category ids are unique, and it only rewrites cached scores: the
target, importance and category-id tables are untouched. -/
theorem target_post_delete_total (db : DB) (t : Target)
    (hnd : (db.categories.map (·.id)).Nodup) :
    ∃ db2, target_post_delete_handler 3 db t = some db2 ∧
      db2.targets = db.targets ∧ db2.importances = db.importances ∧
      db2.categories.map (·.id) = db.categories.map (·.id) := by
  unfold target_post_delete_handler
  by_cases h0 : (t.categoryId == 0) = true
  · rw [if_pos h0]
    exact ⟨db, rfl, rfl, rfl, rfl⟩
  · rw [if_neg h0]
    cases hf : db.findCategory t.categoryId with
    | none => exact ⟨db, rfl, rfl, rfl, rfl⟩
    | some c =>
      show ∃ db2, (calculate_scoresC 3 db t.categoryId).bind
          (fun db1 => calculate_scoresD 3 db1 c.dayId) = some db2 ∧
        db2.targets = db.targets ∧ db2.importances = db.importances ∧
        db2.categories.map (·.id) = db.categories.map (·.id)
      have htot := calculate_scoresC_total 0 db t.categoryId hnd
      rw [hf] at htot
      have htot2 : calculate_scoresC 3 db t.categoryId =
          some (if c.is_deleted then calcDayPure (calcCategoryPure db t.categoryId) c.dayId
                else calcCategoryPure db t.categoryId) := htot
      rw [htot2, Option.some_bind]
      by_cases hdel : c.is_deleted = true
      · rw [if_pos hdel]
        have hndm : ((calcDayPure (calcCategoryPure db t.categoryId) c.dayId).categories.map
            (·.id)).Nodup := by
          rw [catIds_calcDayPure, catIds_calcCategoryPure]
          exact hnd
        have hD : calculate_scoresD 3
            (calcDayPure (calcCategoryPure db t.categoryId) c.dayId) c.dayId =
            some (calcDayPure (calcDayPure (calcCategoryPure db t.categoryId) c.dayId)
              c.dayId) :=
          calculate_scoresD_pure 1 _ c.dayId hndm
        rw [hD]
        refine ⟨_, rfl, ?_, ?_, ?_⟩
        · rw [calcDayPure_targets, calcDayPure_targets]
          rfl
        · rw [calcDayPure_importances, calcDayPure_importances]
          rfl
        · rw [catIds_calcDayPure, catIds_calcDayPure, catIds_calcCategoryPure]
      · rw [if_neg hdel]
        have hndc : ((calcCategoryPure db t.categoryId).categories.map (·.id)).Nodup := by
          rw [catIds_calcCategoryPure]
          exact hnd
        have hD : calculate_scoresD 3 (calcCategoryPure db t.categoryId) c.dayId =
            some (calcDayPure (calcCategoryPure db t.categoryId) c.dayId) :=
          calculate_scoresD_pure 1 _ c.dayId hndc
        rw [hD]
        refine ⟨_, rfl, ?_, ?_, ?_⟩
        · rw [calcDayPure_targets]
          rfl
        · rw [calcDayPure_importances]
          rfl
        · rw [catIds_calcDayPure, catIds_calcCategoryPure]

/-- The whole batch of target `post_delete` signals terminates at
fuel 3 and leaves the target, importance and category-id tables
untouched. -/
theorem runTargetPostDeletes_total (ts : List Target) (db : DB)
    (hnd : (db.categories.map (·.id)).Nodup) :
    ∃ db2, runTargetPostDeletes 3 db ts = some db2 ∧
      db2.targets = db.targets ∧ db2.importances = db.importances ∧
      db2.categories.map (·.id) = db.categories.map (·.id) := by
  induction ts generalizing db with
  | nil => exact ⟨db, rfl, rfl, rfl, rfl⟩
  | cons t rest ih =>
    obtain ⟨db1, h1, ht1, hi1, hc1⟩ := target_post_delete_total db t hnd
    have hnd1 : (db1.categories.map (·.id)).Nodup := by
      rw [hc1]
      exact hnd
    obtain ⟨db2, h2, ht2, hi2, hc2⟩ := ih db1 hnd1
    refine ⟨db2, ?_, by rw [ht2, ht1], by rw [hi2, hi1], by rw [hc2, hc1]⟩
    show (target_post_delete_handler 3 db t).bind
      (fun d => runTargetPostDeletes 3 d rest) = some db2
    rw [h1, Option.some_bind]
    exact h2

/-- Dropping rows that are all soft-deleted does not change any
non-deleted row sets. -/
theorem filter_active_of_deleted_rows (l : List Target) (iid x : Nat)
    (h : ∀ t ∈ l, t.importanceId = iid → t.is_deleted = true) :
    (l.filter (fun t => !(t.importanceId == iid))).filter
        (fun t => t.categoryId == x && !t.is_deleted) =
      l.filter (fun t => t.categoryId == x && !t.is_deleted) := by
  induction l with
  | nil => rfl
  | cons a l ih =>
    have ih2 := ih (fun t ht hm => h t (List.mem_cons_of_mem a ht) hm)
    by_cases hm : a.importanceId = iid
    · have hdel : a.is_deleted = true := h a (List.mem_cons_self a l) hm
      simp [List.filter_cons, hm, hdel, ih2]
    · simp [List.filter_cons, hm, ih2]

theorem activeTargets_eq_of_cascade (db2 db : DB) (iid : Nat)
    (ht : db2.targets = db.targets.filter (fun t => !(t.importanceId == iid)))
    (h : ∀ t ∈ db.targets, t.importanceId = iid → t.is_deleted = true) (x : Nat) :
    activeTargets db2 x = activeTargets db x := by
  unfold activeTargets
  rw [ht]
  exact filter_active_of_deleted_rows db.targets iid x h

/-- On a zero reference count `delete_with_message` is the cascading
deletion followed by the success message. -/
theorem delete_with_message_success (fuel : Nat) (db : DB) (imp : Importance)
    (h : referencedCount db imp = 0) :
    delete_with_message fuel db imp =
      (deleteImportance fuel db imp.id).map
        (fun d => (true, some (delSuccess imp.label imp.score), d)) := by
  unfold delete_with_message can_be_deleted
  rw [h]
  rfl

/-- C7: deleting an ImportanceLevel referenced by at least one
non-deleted target fails with an in-use error naming the count of
referencing targets and mutates nothing (the returned store is the
input store, so the level and every referencing target are
unchanged); with a zero count the deletion proceeds — every target
row still referencing the level is then soft-deleted and the FK
cascade hard-deletes exactly those rows, leaving the non-deleted row
set of every category unchanged — and it is followed by the full
fan-out recompute of every non-deleted day. -/
theorem claimC7 (db : DB) (imp : Importance) (hWF : WF db) :
    (0 < referencedCount db imp →
      delete_with_message 3 db imp =
        some (false, some (errInUse imp.label (referencedCount db imp)), db)) ∧
    (referencedCount db imp = 0 →
      (∀ t ∈ db.targets, t.importanceId = imp.id → t.is_deleted = true) ∧
      ∃ db2, delete_with_message 3 db imp =
          some (true, some (delSuccess imp.label imp.score), db2) ∧
        db2.importances = (removeImportance db imp.id).importances ∧
        db2.targets = (removeImportance db imp.id).targets ∧
        (∀ x, activeTargets db2 x = activeTargets db x) ∧
        (∀ d ∈ db2.days, d.is_deleted = false →
          ∀ c ∈ activeCategories db2 d.id,
            c.max_score = some ((activeTargets db2 c.id).length * getMaxScore db2) ∧
            c.score = some (categoryScoreValue db2 c.id))) := by
  constructor
  · intro hpos
    unfold delete_with_message can_be_deleted
    simp [hpos]
  · intro hzero
    have hdelrows := referencedCount_zero db imp hzero
    refine ⟨hdelrows, ?_⟩
    obtain ⟨dbm, hrunm, htm, him, hcm⟩ :=
      runTargetPostDeletes_total (db.targets.filter (fun t => t.importanceId == imp.id))
        { db with targets := db.targets.filter (fun t => !(t.importanceId == imp.id)) } hWF.1
    have hndm : (dbm.categories.map (·.id)).Nodup := by
      rw [hcm]
      exact hWF.1
    obtain ⟨db2, hrun2, hii2, hti2, hmain⟩ :=
      fanOut_max_formula 1
        { dbm with importances := dbm.importances.filter (fun i => !(i.id == imp.id)) } hndm
    have hrun2' : importanceFanOut 3
        { dbm with importances := dbm.importances.filter (fun i => !(i.id == imp.id)) } =
        some db2 := hrun2
    have htfinal : db2.targets = db.targets.filter (fun t => !(t.importanceId == imp.id)) := by
      rw [hti2]
      show dbm.targets = db.targets.filter (fun t => !(t.importanceId == imp.id))
      rw [htm]
    refine ⟨db2, ?_, ?_, htfinal,
      fun x => activeTargets_eq_of_cascade db2 db imp.id htfinal hdelrows x, hmain⟩
    · rw [delete_with_message_success 3 db imp hzero]
      unfold deleteImportance
      rw [hrunm]
      simp only [Option.some_bind]
      rw [hrun2']
      rfl
    · rw [hii2]
      show dbm.importances.filter (fun i => !(i.id == imp.id)) =
        db.importances.filter (fun i => !(i.id == imp.id))
      rw [him]

/-- Store for the C7 witness: importance 1 is referenced by one
non-deleted target; importance 2 only by the soft-deleted target 2,
so its deletion passes the guard and the FK cascade hard-deletes
target 2. -/
def dbC7 : DB :=
  { importances := [⟨1, "High", 5⟩, ⟨2, "Mid", 3⟩],
    days := [⟨1, 0, some 5, some 5, none, none, false⟩],
    categories := [⟨1, 1, "A", "", some 5, some 5, false⟩],
    targets := [⟨1, "t", 1, 1, true, false⟩, ⟨2, "old", 1, 2, true, true⟩] }

theorem claimC7_witness :
    WF dbC7 ∧ referencedCount dbC7 ⟨1, "High", 5⟩ = 1 ∧
      referencedCount dbC7 ⟨2, "Mid", 3⟩ = 0 ∧
      dbC7.targets.filter (fun t => t.importanceId == Importance.id ⟨2, "Mid", 3⟩) ≠ [] ∧
      ((0 < referencedCount dbC7 ⟨1, "High", 5⟩ →
        delete_with_message 3 dbC7 ⟨1, "High", 5⟩ =
          some (false,
            some (errInUse (Importance.label ⟨1, "High", 5⟩)
              (referencedCount dbC7 ⟨1, "High", 5⟩)), dbC7)) ∧
      (referencedCount dbC7 ⟨1, "High", 5⟩ = 0 →
        (∀ t ∈ dbC7.targets,
          t.importanceId = Importance.id ⟨1, "High", 5⟩ → t.is_deleted = true) ∧
        ∃ db2, delete_with_message 3 dbC7 ⟨1, "High", 5⟩ =
            some (true, some (delSuccess (Importance.label ⟨1, "High", 5⟩)
              (Importance.score ⟨1, "High", 5⟩)), db2) ∧
          db2.importances = (removeImportance dbC7 (Importance.id ⟨1, "High", 5⟩)).importances ∧
          db2.targets = (removeImportance dbC7 (Importance.id ⟨1, "High", 5⟩)).targets ∧
          (∀ x, activeTargets db2 x = activeTargets dbC7 x) ∧
          (∀ d ∈ db2.days, d.is_deleted = false →
            ∀ c ∈ activeCategories db2 d.id,
              c.max_score = some ((activeTargets db2 c.id).length * getMaxScore db2) ∧
              c.score = some (categoryScoreValue db2 c.id)))) ∧
      ((0 < referencedCount dbC7 ⟨2, "Mid", 3⟩ →
        delete_with_message 3 dbC7 ⟨2, "Mid", 3⟩ =
          some (false,
            some (errInUse (Importance.label ⟨2, "Mid", 3⟩)
              (referencedCount dbC7 ⟨2, "Mid", 3⟩)), dbC7)) ∧
      (referencedCount dbC7 ⟨2, "Mid", 3⟩ = 0 →
        (∀ t ∈ dbC7.targets,
          t.importanceId = Importance.id ⟨2, "Mid", 3⟩ → t.is_deleted = true) ∧
        ∃ db2, delete_with_message 3 dbC7 ⟨2, "Mid", 3⟩ =
            some (true, some (delSuccess (Importance.label ⟨2, "Mid", 3⟩)
              (Importance.score ⟨2, "Mid", 3⟩)), db2) ∧
          db2.importances = (removeImportance dbC7 (Importance.id ⟨2, "Mid", 3⟩)).importances ∧
          db2.targets = (removeImportance dbC7 (Importance.id ⟨2, "Mid", 3⟩)).targets ∧
          (∀ x, activeTargets db2 x = activeTargets dbC7 x) ∧
          (∀ d ∈ db2.days, d.is_deleted = false →
            ∀ c ∈ activeCategories db2 d.id,
              c.max_score = some ((activeTargets db2 c.id).length * getMaxScore db2) ∧
              c.score = some (categoryScoreValue db2 c.id)))) :=
  ⟨by decide, by decide, by decide, by decide,
    claimC7 dbC7 ⟨1, "High", 5⟩ (by decide),
    claimC7 dbC7 ⟨2, "Mid", 3⟩ (by decide)⟩

/-! ### Claim C9: the sleep/wake form -/

/-- The bound data of `SleepWakeTimeForm` (`forms.py` lines 286-293):
`wake_time` is a required `TimeField`, `sleep_time` an optional one.
Times of day are minutes in `0..1439`. -/
structure SleepWakeInput where
  wake_time : Option Nat
  sleep_time : Option Nat
deriving Repr, DecidableEq

/-- `form.is_valid()` for `SleepWakeTimeForm`: the required-field
check on `wake_time` plus the cross-field `clean` (`forms.py` lines
297-307), which raises `Sleep time must be after wake time.` whenever
both times are present and `sleep_time <= wake_time`. -/
def sleepWakeIsValid (i : SleepWakeInput) : Bool :=
  match i.wake_time, i.sleep_time with
  | none, _ => false
  | some w, some s => decide (w < s)
  | some _, none => true

/-- `timezone.make_aware(datetime.combine(day_date, t))`: anchor a
time of day on the day's date, in minutes since the epoch. -/
def combineDayTime (dayStart t : Nat) : Nat :=
  dayStart + t

/-- `SleepWakeTimeForm.save` (`forms.py` lines 309-348): store the
wake datetime; store the sleep datetime, adding one day (`+ 1440`
minutes) when the sleep time is strictly before the wake time;
clear `sleep_time` when the field was submitted empty. -/
def sleepWakeSave (dayStart : Nat) (i : SleepWakeInput) (d : ScoreDay) : ScoreDay :=
  let d1 :=
    match i.wake_time with
    | some w => { d with wake_time := some (combineDayTime dayStart w) }
    | none => d
  match i.sleep_time with
  | some s =>
    let sdt :=
      match i.wake_time with
      | some w => if s < w then combineDayTime dayStart s + 1440 else combineDayTime dayStart s
      | none => combineDayTime dayStart s
    { d1 with sleep_time := some sdt }
  | none => { d1 with sleep_time := none }

/-- The `setSleepWakeTimes` flow as the views drive it
(`views.py` lines 109-117 and 818-831): `form.is_valid()` gates
`form.save()`; invalid input is rejected and nothing is stored. -/
def setSleepWakeTimes (dayStart : Nat) (i : SleepWakeInput) (d : ScoreDay) : Option ScoreDay :=
  if sleepWakeIsValid i then some (sleepWakeSave dayStart i d) else none

/-- Day row used by the C9 theorems. -/
def dC9 : ScoreDay := ⟨1, 0, none, none, none, none, false⟩

/-- C9 counterexample: a sleep time earlier than the wake time
(wake 08:00 = 480, sleep 07:00 = 420) is REJECTED by validation —
`clean` raises before `save` can run — rather than accepted and
normalized to the next day as the claim states. -/
theorem claimC9_counterexample :
    sleepWakeIsValid ⟨some 480, some 420⟩ = false ∧
    setSleepWakeTimes 0 ⟨some 480, some 420⟩ dC9 = none := by
  decide

/-- C9 as amended: with both times submitted, sleep ≤ wake is rejected
by validation and nothing is stored; on every input that passes
validation the stored sleep timestamp stays on the same day (no
`+24h`); the next-day normalization branch does exist in
`SleepWakeTimeForm.save` — on raw input with sleep < wake it would
store `day + sleep + 1440` — but the validated flow can never reach
it, since `clean` rejects exactly those inputs. -/
theorem claimC9 (dayStart : Nat) (i : SleepWakeInput) (d : ScoreDay) (w s : Nat)
    (hw : i.wake_time = some w) (hs : i.sleep_time = some s) :
    (s ≤ w → setSleepWakeTimes dayStart i d = none) ∧
    (sleepWakeIsValid i = true →
      setSleepWakeTimes dayStart i d =
        some { d with wake_time := some (dayStart + w), sleep_time := some (dayStart + s) }) ∧
    (s < w → (sleepWakeSave dayStart i d).sleep_time = some (dayStart + s + 1440)) := by
  refine ⟨?_, ?_, ?_⟩
  · intro hle
    unfold setSleepWakeTimes sleepWakeIsValid
    rw [hw, hs]
    simp [Nat.not_lt.mpr hle]
  · intro hvalid
    unfold sleepWakeIsValid at hvalid
    rw [hw, hs] at hvalid
    have hlt : w < s := by simpa using hvalid
    unfold setSleepWakeTimes
    have hvalid2 : sleepWakeIsValid i = true := by
      unfold sleepWakeIsValid
      rw [hw, hs]
      simpa using hlt
    rw [hvalid2]
    unfold sleepWakeSave combineDayTime
    rw [hw, hs]
    simp [Nat.not_lt.mpr (Nat.le_of_lt hlt)]
  · intro hlt
    unfold sleepWakeSave combineDayTime
    rw [hw, hs]
    simp [hlt]

theorem claimC9_witness :
    (⟨some 420, some 480⟩ : SleepWakeInput).wake_time = some 420 ∧
    (⟨some 420, some 480⟩ : SleepWakeInput).sleep_time = some 480 ∧
    ((480 ≤ 420 → setSleepWakeTimes 0 ⟨some 420, some 480⟩ dC9 = none) ∧
      (sleepWakeIsValid ⟨some 420, some 480⟩ = true →
        setSleepWakeTimes 0 ⟨some 420, some 480⟩ dC9 =
          some { dC9 with wake_time := some (0 + 420), sleep_time := some (0 + 480) }) ∧
      (480 < 420 →
        (sleepWakeSave 0 ⟨some 420, some 480⟩ dC9).sleep_time = some (0 + 480 + 1440))) :=
  ⟨by decide, by decide,
    claimC9 0 ⟨some 420, some 480⟩ dC9 420 480 (by decide) (by decide)⟩

/-! ### Claim C10: score never exceeds max score after a recompute -/

theorem mem_le_foldr_max (l : List Nat) (x : Nat) (h : x ∈ l) :
    x ≤ l.foldr Nat.max 0 := by
  induction l with
  | nil => cases h
  | cons a rest ih =>
    rcases List.mem_cons.mp h with h1 | h1
    · subst h1
      exact Nat.le_max_left _ _
    · exact Nat.le_trans (ih h1) (Nat.le_max_right _ _)

theorem impScore_le_max (db : DB) (iid : Nat)
    (h : (db.importances.find? (fun i => i.id == iid)).isSome = true) :
    impScore db iid ≤ getMaxScore db := by
  unfold impScore getMaxScore
  cases hf : db.importances.find? (fun i => i.id == iid) with
  | none => rw [hf] at h; cases h
  | some i =>
    have hmem : i ∈ db.importances := List.mem_of_find?_eq_some hf
    exact mem_le_foldr_max _ _ (List.mem_map_of_mem (·.score) hmem)

theorem categoryScore_le_max (db : DB) (cid : Nat)
    (h : ∀ t ∈ activeTargets db cid,
      (db.importances.find? (fun i => i.id == t.importanceId)).isSome = true) :
    categoryScoreValue db cid ≤ categoryMaxValue db cid := by
  unfold categoryScoreValue categoryMaxValue
  have hbound : ∀ x ∈ ((activeTargets db cid).filter (·.is_achieved)).map
      (fun t => impScore db t.importanceId), x ≤ getMaxScore db := by
    intro x hx
    obtain ⟨t, ht, hxt⟩ := List.mem_map.mp hx
    rw [← hxt]
    exact impScore_le_max db t.importanceId (h t (List.mem_of_mem_filter ht))
  have h1 := List.sum_le_card_nsmul _ _ hbound
  rw [List.length_map, smul_eq_mul] at h1
  apply Nat.le_trans h1
  apply Nat.mul_le_mul_right
  exact List.length_filter_le _ _

theorem dayScore_le_max (db : DB) (did : Nat)
    (h : ∀ c2 ∈ activeCategories db did, ∀ t ∈ activeTargets db c2.id,
      (db.importances.find? (fun i => i.id == t.importanceId)).isSome = true) :
    dayScoreValue db did ≤ dayMaxValue db did := by
  unfold dayScoreValue dayMaxValue
  apply List.sum_le_sum
  intro c2 hc2
  exact categoryScore_le_max db c2.id (h c2 hc2)

/-- C10: after a recompute of a category or of a day, `0 ≤ score ≤
max_score` holds for that entity (scores are naturals, so the lower
bound is inherent), provided every non-deleted target in scope
references an importance level that exists in the registry: each
achieved target contributes at most the global maximum `M`, while
`max_score` counts `M` once per non-deleted target, and the day
values are sums of such category pairs. -/
theorem claimC10 (db : DB) (cid did : Nat) (c : TargetCategory) (d : ScoreDay)
    (hWF : WF db) (hc : db.findCategory cid = some c) (hd : db.findDay did = some d)
    (hcat : ∀ t ∈ activeTargets db cid,
      (db.importances.find? (fun i => i.id == t.importanceId)).isSome = true)
    (hday : ∀ c2 ∈ activeCategories db did, ∀ t ∈ activeTargets db c2.id,
      (db.importances.find? (fun i => i.id == t.importanceId)).isSome = true) :
    categoryScoreValue db cid ≤ categoryMaxValue db cid ∧
    (∃ db', calculate_scoresC 3 db cid = some db' ∧
      storedCatScore db' cid = some (some (categoryScoreValue db cid)) ∧
      storedCatMax db' cid = some (some (categoryMaxValue db cid))) ∧
    dayScoreValue db did ≤ dayMaxValue db did ∧
    (∃ db', calculate_scoresD 2 db did = some db' ∧
      storedDayScore db' did = some (some (dayScoreValue db did)) ∧
      storedDayMax db' did = some (some (dayMaxValue db did))) := by
  have hnd := hWF.1
  refine ⟨categoryScore_le_max db cid hcat, ?_, dayScore_le_max db did hday, ?_⟩
  · obtain ⟨db', hrun⟩ :=
      Option.isSome_iff_exists.mp (calculate_scoresC_isSome db cid hnd)
    refine ⟨db', hrun, ?_, ?_⟩
    · unfold storedCatScore
      rw [storedCat_after_calcC db cid c db' hnd hc hrun]
      rfl
    · unfold storedCatMax
      rw [storedCat_after_calcC db cid c db' hnd hc hrun]
      rfl
  · refine ⟨calcDayPure db did, calculate_scoresD_pure 0 db did hnd, ?_, ?_⟩
    · unfold storedDayScore
      rw [findDay_calcDayPure, hd, Option.map_some',
        updDay_eq_upd did _ _ d (findDay_some_id db did d hd)]
      rfl
    · unfold storedDayMax
      rw [findDay_calcDayPure, hd, Option.map_some',
        updDay_eq_upd did _ _ d (findDay_some_id db did d hd)]
      rfl

theorem claimC10_witness :
    WF dbC3 ∧ dbC3.findCategory 1 = some ⟨1, 1, "A", "", none, none, false⟩ ∧
      dbC3.findDay 1 = some ⟨1, 0, none, none, none, none, false⟩ ∧
      (categoryScoreValue dbC3 1 ≤ categoryMaxValue dbC3 1 ∧
      (∃ db', calculate_scoresC 3 dbC3 1 = some db' ∧
        storedCatScore db' 1 = some (some (categoryScoreValue dbC3 1)) ∧
        storedCatMax db' 1 = some (some (categoryMaxValue dbC3 1))) ∧
      dayScoreValue dbC3 1 ≤ dayMaxValue dbC3 1 ∧
      (∃ db', calculate_scoresD 2 dbC3 1 = some db' ∧
        storedDayScore db' 1 = some (some (dayScoreValue dbC3 1)) ∧
        storedDayMax db' 1 = some (some (dayMaxValue dbC3 1)))) :=
  ⟨by decide, by decide, by decide,
    claimC10 dbC3 1 1 ⟨1, 1, "A", "", none, none, false⟩ ⟨1, 0, none, none, none, none, false⟩
      (by decide) (by decide) (by decide) (by decide) (by decide)⟩

/-! ### Claim C8: day carry-forward -/

/-- Auto-increment primary keys: the next id is past the maximum. -/
def maxNat (l : List Nat) : Nat :=
  l.foldr Nat.max 0

/-- Fresh primary key for a created category row. -/
def freshCatId (db : DB) : Nat :=
  maxNat (db.categories.map (·.id)) + 1

/-- Fresh primary key for a created target row. -/
def freshTargetId (db : DB) : Nat :=
  maxNat (db.targets.map (·.id)) + 1

/-- Fresh primary key for a created day row. -/
def freshDayId (db : DB) : Nat :=
  maxNat (db.days.map (·.id)) + 1

/-- `TargetCategory.save()` persistence: update or insert. -/
def putCategory (db : DB) (c : TargetCategory) : DB :=
  if db.categories.any (fun u => u.id == c.id) then
    { db with categories := db.categories.map (fun u => if u.id == c.id then c else u) }
  else { db with categories := db.categories ++ [c] }

/-- `target_category_post_save_handler` (`signals.py` lines 63-77),
for a save with the given `update_fields` presence: a non-deleted
category saved without `update_fields` triggers `day.calculate_scores`,
a deleted category always does, and a non-deleted narrow save fires
nothing. -/
def target_category_post_save_handler (fuel : Nat) (db : DB) (c : TargetCategory)
    (updateFields : Bool) : Option DB :=
  if !c.is_deleted && !updateFields then calculate_scoresD fuel db c.dayId
  else if c.is_deleted then calculate_scoresD fuel db c.dayId
  else some db

/-- A full `TargetCategory.save()` (no `update_fields`): persist, then
fire the post-save signal. -/
def saveCategory (fuel : Nat) (db : DB) (c : TargetCategory) : Option DB :=
  target_category_post_save_handler fuel (putCategory db c) c false

/-- `TargetCategory.objects.create(day=..., name=..., description=...,
score=None, max_score=None)` in `copy_previous_day_categories`
(`models.py` lines 292-300). -/
def create_category (fuel : Nat) (db : DB) (did : Nat) (nm descr : String) : Option DB :=
  saveCategory fuel db ⟨freshCatId db, did, nm, descr, none, none, false⟩

/-- `Target.objects.create(name=..., category=new_category,
importance=..., is_achieved=False)` in `copy_previous_day_categories`
(`models.py` lines 304-310). -/
def create_target (fuel : Nat) (db : DB) (nm : String) (cid iid : Nat) : Option DB :=
  saveTarget fuel db ⟨freshTargetId db, nm, cid, iid, false, false⟩

/-- The inner loop of `copy_previous_day_categories`: clone each
listed previous-day target into the freshly created category. -/
def cloneTargets (fuel : Nat) (db : DB) (ts : List Target) (newCid : Nat) : Option DB :=
  match ts with
  | [] => some db
  | t :: rest =>
    (create_target fuel db t.name newCid t.importanceId).bind
      (fun db1 => cloneTargets fuel db1 rest newCid)

/-- The outer loop of `copy_previous_day_categories`: for each
non-deleted previous-day category create a clone on the new day, then
clone its non-deleted targets (the target queryset is evaluated when
the inner loop starts, i.e. on the state after the category was
created). -/
def cloneCategories (fuel : Nat) (db : DB) (prevCats : List TargetCategory) (newDid : Nat) :
    Option DB :=
  match prevCats with
  | [] => some db
  | pc :: rest =>
    (create_category fuel db newDid pc.name pc.description).bind (fun db1 =>
      (cloneTargets fuel db1 (activeTargets db1 pc.id) (freshCatId db)).bind (fun db2 =>
        cloneCategories fuel db2 rest newDid))

/-- `ScoreDay.objects.filter(day__lt=self.day, is_deleted=False)
.order_by('-day').first()` (`models.py` lines 282-285): the earlier
non-deleted day with the greatest date. -/
def previous_day (db : DB) (dayDate : Nat) : Option ScoreDay :=
  (db.days.filter (fun d => decide (d.day < dayDate) && !d.is_deleted)).foldl
    (fun acc d =>
      match acc with
      | none => some d
      | some b => if b.day < d.day then some d else some b) none

/-- `ScoreDay.copy_previous_day_categories` (`models.py` lines
280-310): nothing happens without a previous day; otherwise its
non-deleted categories are cloned with their non-deleted targets. -/
def copy_previous_day_categories (fuel : Nat) (db : DB) (selfId selfDate : Nat) : Option DB :=
  match previous_day db selfDate with
  | none => some db
  | some prev => cloneCategories fuel db (activeCategories db prev.id) selfId

/-- `ScoreDay.get_or_create_today` (`models.py` lines 376-389) with
the date as a parameter: `get_or_create` on the raw `day` column; only
on creation, carry forward the previous day and recompute. -/
def get_or_create_day (fuel : Nat) (db : DB) (dayDate : Nat) : Option DB :=
  match db.days.find? (fun d => d.day == dayDate) with
  | some _ => some db
  | none =>
    (copy_previous_day_categories fuel
        { db with days := db.days ++ [⟨freshDayId db, dayDate, none, none, none, none, false⟩] }
        (freshDayId db) dayDate).bind
      (fun db2 => calculate_scoresD fuel db2 (freshDayId db))

/-- The state change of one signal-free target clone: append the
clone row, then the recomputes its save fires (category, then day). -/
def cloneStep (db : DB) (t : Target) (newCid newDid : Nat) : DB :=
  calcDayPure
    (calcCategoryPure
      { db with targets :=
          db.targets ++ [⟨freshTargetId db, t.name, newCid, t.importanceId, false, false⟩] }
      newCid)
    newDid

/-- Signal-free counterpart of the inner clone loop. -/
def cloneTargetsPure (db : DB) (ts : List Target) (newCid newDid : Nat) : DB :=
  match ts with
  | [] => db
  | t :: rest => cloneTargetsPure (cloneStep db t newCid newDid) rest newCid newDid

/-- The state change of one signal-free category creation: append the
clone row (null scores), then the day recompute its save fires. -/
def catStep (db : DB) (pc : TargetCategory) (newDid : Nat) : DB :=
  calcDayPure
    { db with categories :=
        db.categories ++ [⟨freshCatId db, newDid, pc.name, pc.description, none, none, false⟩] }
    newDid

/-- Signal-free counterpart of the outer clone loop. -/
def cloneCatsPure (db : DB) (prevCats : List TargetCategory) (newDid : Nat) : DB :=
  match prevCats with
  | [] => db
  | pc :: rest =>
    cloneCatsPure
      (cloneTargetsPure (catStep db pc newDid)
        (activeTargets (catStep db pc newDid) pc.id) (freshCatId db) newDid)
      rest newDid

/-- Key fields of a category row, stable under score recomputes. -/
def catKey (c : TargetCategory) : Nat × String × String × Bool :=
  (c.id, c.name, c.description, c.is_deleted)

/-- Key fields of a day row, stable under score recomputes. -/
def dayKey (d : ScoreDay) : Nat × Nat × Bool :=
  (d.id, d.day, d.is_deleted)

/-- The category rows of a day (deleted or not), in storage order. -/
def catsOf (db : DB) (did : Nat) : List TargetCategory :=
  db.categories.filter (fun c => c.dayId == did)

/-- Observable content of a target row, id dropped. -/
def tupleOf (t : Target) : String × Nat × Bool × Bool :=
  (t.name, t.importanceId, t.is_achieved, t.is_deleted)

/-- Observable content of a category's target rows, in storage order. -/
def targetTuples (db : DB) (cid : Nat) : List (String × Nat × Bool × Bool) :=
  (db.targets.filter (fun t => t.categoryId == cid)).map tupleOf

/-- What carry-forward copies from a source target: same name and
importance reference, `is_achieved` forced false, not deleted. -/
def cloneTuple (t : Target) : String × Nat × Bool × Bool :=
  (t.name, t.importanceId, false, false)

/-- Referential integrity of the store: every category row references
an existing day and every target row references an existing category. -/
def FKok (db : DB) : Prop :=
  (∀ c ∈ db.categories, c.dayId ∈ db.days.map (·.id)) ∧
    (∀ t ∈ db.targets, t.categoryId ∈ db.categories.map (·.id))

instance (db : DB) : Decidable (FKok db) := by
  unfold FKok
  infer_instance

theorem mem_le_maxNat (l : List Nat) (x : Nat) (h : x ∈ l) : x ≤ maxNat l :=
  mem_le_foldr_max l x h

theorem fresh_not_mem (l : List Nat) : maxNat l + 1 ∉ l := by
  intro h
  have := mem_le_maxNat l _ h
  omega

theorem putTarget_fresh (db : DB) (nm : String) (cid iid : Nat) (ach del : Bool) :
    putTarget db ⟨freshTargetId db, nm, cid, iid, ach, del⟩ =
      { db with targets := db.targets ++ [⟨freshTargetId db, nm, cid, iid, ach, del⟩] } := by
  unfold putTarget
  have h : (db.targets.any (fun u => u.id == freshTargetId db)) = false := by
    rw [List.any_eq_false]
    intro u hu
    simp only [beq_iff_eq]
    intro he
    apply fresh_not_mem (db.targets.map (·.id))
    show freshTargetId db ∈ db.targets.map (·.id)
    rw [← he]
    exact List.mem_map_of_mem (·.id) hu
  rw [h]
  rfl

theorem putCategory_fresh (db : DB) (did : Nat) (nm descr : String) :
    putCategory db ⟨freshCatId db, did, nm, descr, none, none, false⟩ =
      { db with categories :=
          db.categories ++ [⟨freshCatId db, did, nm, descr, none, none, false⟩] } := by
  unfold putCategory
  have h : (db.categories.any (fun u => u.id == freshCatId db)) = false := by
    rw [List.any_eq_false]
    intro u hu
    simp only [beq_iff_eq]
    intro he
    apply fresh_not_mem (db.categories.map (·.id))
    show freshCatId db ∈ db.categories.map (·.id)
    rw [← he]
    exact List.mem_map_of_mem (·.id) hu
  rw [h]
  rfl

theorem freshCatId_not_mem (db : DB) : freshCatId db ∉ db.categories.map (·.id) :=
  fresh_not_mem (db.categories.map (·.id))

theorem nodup_append_fresh (l : List Nat) (x : Nat) (h : l.Nodup) (hx : x ∉ l) :
    (l ++ [x]).Nodup := by
  rw [List.nodup_append]
  refine ⟨h, List.nodup_singleton x, ?_⟩
  intro a ha hb
  simp at hb
  subst hb
  exact hx ha

theorem catKey_updCat (cid s m : Nat) (c : TargetCategory) :
    catKey (updCat cid s m c) = catKey c := by
  unfold catKey updCat; split <;> rfl

theorem catKey_updAllCats (db : DB) (S : List Nat) (c : TargetCategory) :
    catKey (updAllCats db S c) = catKey c := by
  unfold catKey updAllCats; split <;> rfl

theorem dayKey_updDay (did s m : Nat) (d : ScoreDay) :
    dayKey (updDay did s m d) = dayKey d := by
  unfold dayKey updDay; split <;> rfl

theorem catsOf_calcCategoryPure (db : DB) (x y : Nat) :
    catsOf (calcCategoryPure db x) y =
      (catsOf db y).map (updCat x (categoryScoreValue db x) (categoryMaxValue db x)) := by
  unfold catsOf
  rw [show (calcCategoryPure db x).categories =
      db.categories.map (updCat x (categoryScoreValue db x) (categoryMaxValue db x)) from rfl,
    List.filter_map]
  congr 1
  apply List.filter_congr
  intro c _
  simp [Function.comp, updCat_dayId]

theorem catsOf_calcDayPure (db : DB) (did y : Nat) :
    catsOf (calcDayPure db did) y = (catsOf db y).map (updAllCats db (activeIds db did)) := by
  unfold catsOf
  rw [calcDayPure_categories, List.filter_map]
  congr 1
  apply List.filter_congr
  intro c _
  simp [Function.comp, updAllCats_dayId]

theorem catKeys_calcCategoryPure (db : DB) (x y : Nat) :
    (catsOf (calcCategoryPure db x) y).map catKey = (catsOf db y).map catKey := by
  rw [catsOf_calcCategoryPure, List.map_map]
  apply List.map_congr_left
  intro c _
  exact catKey_updCat _ _ _ c

theorem catKeys_calcDayPure (db : DB) (did y : Nat) :
    (catsOf (calcDayPure db did) y).map catKey = (catsOf db y).map catKey := by
  rw [catsOf_calcDayPure, List.map_map]
  apply List.map_congr_left
  intro c _
  exact catKey_updAllCats _ _ c

theorem dayKeys_calcDayPure (db : DB) (did : Nat) :
    (calcDayPure db did).days.map dayKey = db.days.map dayKey := by
  rw [calcDayPure_days, List.map_map]
  apply List.map_congr_left
  intro d _
  exact dayKey_updDay _ _ _ d

theorem cloneStep_targets (db : DB) (t : Target) (newCid newDid : Nat) :
    (cloneStep db t newCid newDid).targets =
      db.targets ++ [⟨freshTargetId db, t.name, newCid, t.importanceId, false, false⟩] := by
  unfold cloneStep
  rw [calcDayPure_targets]
  rfl

theorem cloneStep_importances (db : DB) (t : Target) (newCid newDid : Nat) :
    (cloneStep db t newCid newDid).importances = db.importances := by
  unfold cloneStep
  rw [calcDayPure_importances]
  rfl

theorem cloneStep_catIds (db : DB) (t : Target) (newCid newDid : Nat) :
    (cloneStep db t newCid newDid).categories.map (·.id) = db.categories.map (·.id) := by
  unfold cloneStep
  rw [catIds_calcDayPure]
  exact catIds_setCat _ _ _ _

theorem cloneStep_catKeys (db : DB) (t : Target) (newCid newDid y : Nat) :
    (catsOf (cloneStep db t newCid newDid) y).map catKey = (catsOf db y).map catKey := by
  unfold cloneStep
  rw [catKeys_calcDayPure, catKeys_calcCategoryPure]
  rfl

theorem cloneStep_dayKeys (db : DB) (t : Target) (newCid newDid : Nat) :
    (cloneStep db t newCid newDid).days.map dayKey = db.days.map dayKey := by
  unfold cloneStep
  rw [dayKeys_calcDayPure]
  rfl

theorem targetTuples_congr (db1 db2 : DB) (h : db1.targets = db2.targets) (x : Nat) :
    targetTuples db1 x = targetTuples db2 x := by
  unfold targetTuples
  rw [h]

theorem targetTuples_append (db : DB) (l : List Target) (x : Nat) :
    targetTuples { db with targets := db.targets ++ l } x =
      targetTuples db x ++ (l.filter (fun u => u.categoryId == x)).map tupleOf := by
  unfold targetTuples
  rw [show ({ db with targets := db.targets ++ l } : DB).targets = db.targets ++ l from rfl,
    List.filter_append, List.map_append]

theorem activeTargets_append (db : DB) (l : List Target) (x : Nat) :
    activeTargets { db with targets := db.targets ++ l } x =
      activeTargets db x ++ l.filter (fun u => u.categoryId == x && !u.is_deleted) := by
  unfold activeTargets
  rw [show ({ db with targets := db.targets ++ l } : DB).targets = db.targets ++ l from rfl,
    List.filter_append]

theorem cloneStep_tuples_self (db : DB) (t : Target) (newCid newDid : Nat) :
    targetTuples (cloneStep db t newCid newDid) newCid =
      targetTuples db newCid ++ [cloneTuple t] := by
  rw [targetTuples_congr _ { db with targets :=
      db.targets ++ [⟨freshTargetId db, t.name, newCid, t.importanceId, false, false⟩] }
    (cloneStep_targets db t newCid newDid) newCid]
  rw [targetTuples_append]
  simp [tupleOf, cloneTuple]

theorem cloneStep_tuples_other (db : DB) (t : Target) (newCid newDid x : Nat)
    (hx : x ≠ newCid) :
    targetTuples (cloneStep db t newCid newDid) x = targetTuples db x := by
  rw [targetTuples_congr _ { db with targets :=
      db.targets ++ [⟨freshTargetId db, t.name, newCid, t.importanceId, false, false⟩] }
    (cloneStep_targets db t newCid newDid) x]
  rw [targetTuples_append]
  simp [Ne.symm hx]

theorem cloneStep_active_other (db : DB) (t : Target) (newCid newDid x : Nat)
    (hx : x ≠ newCid) :
    activeTargets (cloneStep db t newCid newDid) x = activeTargets db x := by
  rw [activeTargets_congr (cloneStep db t newCid newDid) { db with targets :=
      db.targets ++ [⟨freshTargetId db, t.name, newCid, t.importanceId, false, false⟩] }
    (cloneStep_targets db t newCid newDid) x]
  rw [activeTargets_append]
  simp [Ne.symm hx]

theorem cloneStep_find_shape (db : DB) (t : Target) (newCid newDid x : Nat)
    (c : TargetCategory) (hc : db.findCategory x = some c) :
    ∃ c', (cloneStep db t newCid newDid).findCategory x = some c' ∧
      c'.is_deleted = c.is_deleted ∧ c'.dayId = c.dayId ∧ c'.id = c.id := by
  unfold cloneStep
  rw [findCategory_calcDayPure, findCategory_calcCategoryPure]
  rw [show ({ db with targets :=
      db.targets ++ [⟨freshTargetId db, t.name, newCid, t.importanceId, false, false⟩] } :
      DB).findCategory x = db.findCategory x from rfl, hc]
  refine ⟨_, rfl, ?_, ?_, ?_⟩
  · rw [updAllCats_del, updCat_del]
  · rw [updAllCats_dayId, updCat_dayId]
  · rw [updAllCats_id, updCat_id]

theorem cloneTargetsPure_spec (ts : List Target) (db : DB) (newCid newDid : Nat) :
    (∃ T, (cloneTargetsPure db ts newCid newDid).targets = db.targets ++ T ∧
       ∀ u ∈ T, u.categoryId = newCid) ∧
    (cloneTargetsPure db ts newCid newDid).importances = db.importances ∧
    (cloneTargetsPure db ts newCid newDid).categories.map (·.id) = db.categories.map (·.id) ∧
    (∀ y, (catsOf (cloneTargetsPure db ts newCid newDid) y).map catKey =
      (catsOf db y).map catKey) ∧
    (cloneTargetsPure db ts newCid newDid).days.map dayKey = db.days.map dayKey ∧
    targetTuples (cloneTargetsPure db ts newCid newDid) newCid =
      targetTuples db newCid ++ ts.map cloneTuple ∧
    (∀ x, x ≠ newCid → targetTuples (cloneTargetsPure db ts newCid newDid) x =
      targetTuples db x) ∧
    (∀ x, x ≠ newCid → activeTargets (cloneTargetsPure db ts newCid newDid) x =
      activeTargets db x) := by
  induction ts generalizing db with
  | nil =>
    refine ⟨⟨[], by simp [cloneTargetsPure], by simp⟩, rfl, rfl, fun y => rfl, rfl, by
      simp [cloneTargetsPure], fun x _ => rfl, fun x _ => rfl⟩
  | cons t rest ih =>
    have hstep : cloneTargetsPure db (t :: rest) newCid newDid =
        cloneTargetsPure (cloneStep db t newCid newDid) rest newCid newDid := rfl
    obtain ⟨⟨T, hT, hTc⟩, hImp, hIds, hKeys, hDays, hSelf, hOther, hActive⟩ :=
      ih (cloneStep db t newCid newDid)
    rw [hstep]
    refine ⟨⟨⟨freshTargetId db, t.name, newCid, t.importanceId, false, false⟩ :: T, ?_, ?_⟩,
      ?_, ?_, ?_, ?_, ?_, ?_, ?_⟩
    · rw [hT, cloneStep_targets]
      simp
    · intro u hu
      rcases List.mem_cons.mp hu with h1 | h1
      · subst h1; rfl
      · exact hTc u h1
    · rw [hImp, cloneStep_importances]
    · rw [hIds, cloneStep_catIds]
    · intro y
      rw [hKeys y, cloneStep_catKeys]
    · rw [hDays, cloneStep_dayKeys]
    · rw [hSelf, cloneStep_tuples_self]
      simp
    · intro x hx
      rw [hOther x hx, cloneStep_tuples_other db t newCid newDid x hx]
    · intro x hx
      rw [hActive x hx, cloneStep_active_other db t newCid newDid x hx]

theorem catStep_targets (db : DB) (pc : TargetCategory) (newDid : Nat) :
    (catStep db pc newDid).targets = db.targets := by
  unfold catStep
  rw [calcDayPure_targets]

theorem catStep_importances (db : DB) (pc : TargetCategory) (newDid : Nat) :
    (catStep db pc newDid).importances = db.importances := by
  unfold catStep
  rw [calcDayPure_importances]

theorem catStep_catIds (db : DB) (pc : TargetCategory) (newDid : Nat) :
    (catStep db pc newDid).categories.map (·.id) =
      db.categories.map (·.id) ++ [freshCatId db] := by
  unfold catStep
  rw [catIds_calcDayPure]
  rw [show ({ db with categories := db.categories ++
      [⟨freshCatId db, newDid, pc.name, pc.description, none, none, false⟩] } : DB).categories =
    db.categories ++ [⟨freshCatId db, newDid, pc.name, pc.description, none, none, false⟩]
    from rfl]
  rw [List.map_append]
  rfl

theorem catsOf_append (db : DB) (l : List TargetCategory) (y : Nat) :
    catsOf { db with categories := db.categories ++ l } y =
      catsOf db y ++ l.filter (fun c => c.dayId == y) := by
  unfold catsOf
  rw [show ({ db with categories := db.categories ++ l } : DB).categories = db.categories ++ l
    from rfl, List.filter_append]

theorem catStep_catKeys_self (db : DB) (pc : TargetCategory) (newDid : Nat) :
    (catsOf (catStep db pc newDid) newDid).map catKey =
      (catsOf db newDid).map catKey ++ [(freshCatId db, pc.name, pc.description, false)] := by
  unfold catStep
  rw [catKeys_calcDayPure, catsOf_append, List.map_append]
  simp [catKey]

theorem catStep_dayKeys (db : DB) (pc : TargetCategory) (newDid : Nat) :
    (catStep db pc newDid).days.map dayKey = db.days.map dayKey := by
  unfold catStep
  rw [dayKeys_calcDayPure]

theorem catStep_tuples (db : DB) (pc : TargetCategory) (newDid x : Nat) :
    targetTuples (catStep db pc newDid) x = targetTuples db x :=
  targetTuples_congr _ _ (catStep_targets db pc newDid) x

theorem catStep_active (db : DB) (pc : TargetCategory) (newDid x : Nat) :
    activeTargets (catStep db pc newDid) x = activeTargets db x :=
  activeTargets_congr _ _ (catStep_targets db pc newDid) x

theorem findCategory_not_mem (db : DB) (x : Nat) (h : x ∉ db.categories.map (·.id)) :
    db.findCategory x = none := by
  unfold DB.findCategory
  rw [List.find?_eq_none]
  intro c hc
  simp only [beq_iff_eq]
  intro he
  exact h (he ▸ List.mem_map_of_mem (·.id) hc)

theorem catStep_find_fresh (db : DB) (pc : TargetCategory) (newDid : Nat) :
    ∃ c', (catStep db pc newDid).findCategory (freshCatId db) = some c' ∧
      c'.is_deleted = false ∧ c'.dayId = newDid := by
  unfold catStep
  rw [findCategory_calcDayPure]
  have h1 : ({ db with categories := db.categories ++
      [⟨freshCatId db, newDid, pc.name, pc.description, none, none, false⟩] } :
        DB).findCategory (freshCatId db) =
      some ⟨freshCatId db, newDid, pc.name, pc.description, none, none, false⟩ := by
    unfold DB.findCategory
    rw [show ({ db with categories := db.categories ++
        [⟨freshCatId db, newDid, pc.name, pc.description, none, none, false⟩] } : DB).categories =
      db.categories ++ [⟨freshCatId db, newDid, pc.name, pc.description, none, none, false⟩]
      from rfl]
    rw [List.find?_append]
    have h2 : db.categories.find? (fun c => c.id == freshCatId db) = none :=
      findCategory_not_mem db (freshCatId db) (freshCatId_not_mem db)
    rw [h2]
    simp
  rw [h1, Option.map_some']
  refine ⟨_, rfl, ?_, ?_⟩
  · rw [updAllCats_del]
  · rw [updAllCats_dayId]

/-- A full save of a non-deleted target: persist, recompute its
category, then its category's day. -/
theorem saveTarget_notdel (fuel : Nat) (db : DB) (t : Target) (c : TargetCategory)
    (ht : t.is_deleted = false) (hc : (putTarget db t).findCategory t.categoryId = some c)
    (hdel : c.is_deleted = false)
    (hnd : ((putTarget db t).categories.map (·.id)).Nodup) :
    saveTarget (fuel + 2) db t =
      some (calcDayPure (calcCategoryPure (putTarget db t) t.categoryId) c.dayId) := by
  unfold saveTarget target_post_save_handler
  rw [ht, hc]
  simp only [Bool.false_eq_true, if_false]
  have hC : calculate_scoresC (fuel + 1 + 1) (putTarget db t) t.categoryId =
      some (calcCategoryPure (putTarget db t) t.categoryId) := by
    apply calculate_scoresC_pure
    intro c' hc'
    rw [hc] at hc'
    rw [← Option.some.inj hc']
    exact hdel
  rw [hC, Option.some_bind]
  apply calculate_scoresD_pure
  rw [show (calcCategoryPure (putTarget db t) t.categoryId).categories.map (·.id) =
    (putTarget db t).categories.map (·.id) from catIds_setCat _ _ _ _]
  exact hnd

theorem cloneTargets_pure (fuel : Nat) (ts : List Target) (db : DB) (newCid newDid : Nat)
    (hnd : (db.categories.map (·.id)).Nodup)
    (hfind : ∃ c, db.findCategory newCid = some c ∧ c.is_deleted = false ∧ c.dayId = newDid) :
    cloneTargets (fuel + 2) db ts newCid = some (cloneTargetsPure db ts newCid newDid) := by
  induction ts generalizing db with
  | nil => rfl
  | cons t rest ih =>
    obtain ⟨c, hc, hdel, hday⟩ := hfind
    have hput := putTarget_fresh db t.name newCid t.importanceId false false
    have hfc : (putTarget db
        ⟨freshTargetId db, t.name, newCid, t.importanceId, false, false⟩).findCategory newCid =
        some c := by
      rw [hput]
      exact hc
    have hnd2 : ((putTarget db
        ⟨freshTargetId db, t.name, newCid, t.importanceId, false, false⟩).categories.map
          (·.id)).Nodup := by
      rw [hput]
      exact hnd
    have hsave := saveTarget_notdel fuel db
      ⟨freshTargetId db, t.name, newCid, t.importanceId, false, false⟩ c rfl hfc hdel hnd2
    have hstep : cloneTargets (fuel + 2) db (t :: rest) newCid =
        (saveTarget (fuel + 2) db
            ⟨freshTargetId db, t.name, newCid, t.importanceId, false, false⟩).bind
          (fun db1 => cloneTargets (fuel + 2) db1 rest newCid) := rfl
    rw [hstep, hsave, Option.some_bind, hput, hday]
    show cloneTargets (fuel + 2) (cloneStep db t newCid newDid) rest newCid =
      some (cloneTargetsPure (cloneStep db t newCid newDid) rest newCid newDid)
    apply ih
    · rw [cloneStep_catIds]
      exact hnd
    · obtain ⟨c', hc', hdel', hday', _⟩ := cloneStep_find_shape db t newCid newDid newCid c hc
      refine ⟨c', hc', ?_, ?_⟩
      · rw [hdel']
        exact hdel
      · rw [hday']
        exact hday

theorem cloneCategories_pure (fuel : Nat) (prevCats : List TargetCategory) (db : DB)
    (newDid : Nat) (hnd : (db.categories.map (·.id)).Nodup) :
    cloneCategories (fuel + 2) db prevCats newDid = some (cloneCatsPure db prevCats newDid) := by
  induction prevCats generalizing db with
  | nil => rfl
  | cons pc rest ih =>
    have hputc := putCategory_fresh db newDid pc.name pc.description
    have hnd1 : (({ db with categories := db.categories ++
        [⟨freshCatId db, newDid, pc.name, pc.description, none, none, false⟩] } :
          DB).categories.map (·.id)).Nodup := by
      rw [show ({ db with categories := db.categories ++
          [⟨freshCatId db, newDid, pc.name, pc.description, none, none, false⟩] } :
            DB).categories = db.categories ++
          [⟨freshCatId db, newDid, pc.name, pc.description, none, none, false⟩] from rfl,
        List.map_append]
      exact nodup_append_fresh _ _ hnd (freshCatId_not_mem db)
    have hcreate : create_category (fuel + 2) db newDid pc.name pc.description =
        some (catStep db pc newDid) := by
      show calculate_scoresD (fuel + 2)
          (putCategory db ⟨freshCatId db, newDid, pc.name, pc.description, none, none, false⟩)
          newDid = some (catStep db pc newDid)
      rw [hputc, calculate_scoresD_pure fuel _ newDid hnd1]
      rfl
    have hnd2 : ((catStep db pc newDid).categories.map (·.id)).Nodup := by
      rw [catStep_catIds]
      exact nodup_append_fresh _ _ hnd (freshCatId_not_mem db)
    have hct := cloneTargets_pure fuel (activeTargets (catStep db pc newDid) pc.id)
      (catStep db pc newDid) (freshCatId db) newDid hnd2 (catStep_find_fresh db pc newDid)
    have hstep : cloneCategories (fuel + 2) db (pc :: rest) newDid =
        (create_category (fuel + 2) db newDid pc.name pc.description).bind (fun db1 =>
          (cloneTargets (fuel + 2) db1 (activeTargets db1 pc.id) (freshCatId db)).bind
            (fun db2 => cloneCategories (fuel + 2) db2 rest newDid)) := rfl
    rw [hstep, hcreate, Option.some_bind, hct, Option.some_bind]
    have hpure : cloneCatsPure db (pc :: rest) newDid =
        cloneCatsPure (cloneTargetsPure (catStep db pc newDid)
          (activeTargets (catStep db pc newDid) pc.id) (freshCatId db) newDid) rest newDid := rfl
    rw [hpure]
    apply ih
    obtain ⟨_, _, hIds, _⟩ := cloneTargetsPure_spec
      (activeTargets (catStep db pc newDid) pc.id) (catStep db pc newDid)
      (freshCatId db) newDid
    rw [hIds]
    exact hnd2

theorem targetTuples_nil (db : DB) (x : Nat)
    (h3 : ∀ t ∈ db.targets, t.categoryId ∈ db.categories.map (·.id))
    (hx : x ∉ db.categories.map (·.id)) : targetTuples db x = [] := by
  unfold targetTuples
  rw [List.filter_eq_nil_iff.mpr]
  · rfl
  · intro t ht
    simp only [beq_iff_eq]
    intro he
    exact hx (he ▸ h3 t ht)

/-- Cumulative specification of the (signal-free) outer clone loop:
one fresh category id per source category, carrying name and
description; per pair, the new category's target rows are exactly the
clone tuples of the source category's non-deleted targets (achieved
and deleted flags forced false); rows outside the clones untouched. -/
theorem cloneCatsPure_spec (prevCats : List TargetCategory) (db : DB) (newDid : Nat)
    (h1 : (db.categories.map (·.id)).Nodup)
    (h2 : ∀ pc ∈ prevCats, pc.id ∈ db.categories.map (·.id))
    (h3 : ∀ t ∈ db.targets, t.categoryId ∈ db.categories.map (·.id)) :
    ∃ ids : List Nat,
      ids.length = prevCats.length ∧
      (cloneCatsPure db prevCats newDid).importances = db.importances ∧
      (∃ T, (cloneCatsPure db prevCats newDid).targets = db.targets ++ T ∧
        ∀ u ∈ T, u.categoryId ∈ ids) ∧
      (cloneCatsPure db prevCats newDid).categories.map (·.id) =
        db.categories.map (·.id) ++ ids ∧
      ((cloneCatsPure db prevCats newDid).categories.map (·.id)).Nodup ∧
      (∀ i ∈ ids, i ∉ db.categories.map (·.id)) ∧
      (catsOf (cloneCatsPure db prevCats newDid) newDid).map catKey =
        (catsOf db newDid).map catKey ++
          (ids.zip prevCats).map (fun p => (p.1, p.2.name, p.2.description, false)) ∧
      (∀ p ∈ ids.zip prevCats, targetTuples (cloneCatsPure db prevCats newDid) p.1 =
        (activeTargets db p.2.id).map cloneTuple) ∧
      (∀ x, x ∉ ids → targetTuples (cloneCatsPure db prevCats newDid) x = targetTuples db x) ∧
      (cloneCatsPure db prevCats newDid).days.map dayKey = db.days.map dayKey := by
  induction prevCats generalizing db with
  | nil =>
    refine ⟨[], rfl, rfl, ⟨[], by simp [cloneCatsPure], by simp⟩, by simp [cloneCatsPure],
      by simpa [cloneCatsPure] using h1, by simp, by simp [cloneCatsPure], by simp,
      fun x _ => rfl, rfl⟩
  | cons pc rest ih =>
    have hA_active : activeTargets (catStep db pc newDid) pc.id = activeTargets db pc.id :=
      catStep_active db pc newDid pc.id
    obtain ⟨⟨T0, hT0, hT0c⟩, hBimp, hBids, hBkeys, hBdays, hBself, hBother, hBactive⟩ :=
      cloneTargetsPure_spec (activeTargets (catStep db pc newDid) pc.id)
        (catStep db pc newDid) (freshCatId db) newDid
    set B := cloneTargetsPure (catStep db pc newDid)
      (activeTargets (catStep db pc newDid) pc.id) (freshCatId db) newDid with hB
    have hBids2 : B.categories.map (·.id) = db.categories.map (·.id) ++ [freshCatId db] := by
      rw [hBids, catStep_catIds]
    have hfreshB : freshCatId db ∈ B.categories.map (·.id) := by
      rw [hBids2]
      exact List.mem_append_right _ (List.mem_singleton.mpr rfl)
    have h1B : (B.categories.map (·.id)).Nodup := by
      rw [hBids2]
      exact nodup_append_fresh _ _ h1 (freshCatId_not_mem db)
    have h2B : ∀ pc' ∈ rest, pc'.id ∈ B.categories.map (·.id) := by
      intro pc' hpc'
      rw [hBids2]
      exact List.mem_append_left _ (h2 pc' (List.mem_cons_of_mem pc hpc'))
    have h3B : ∀ u ∈ B.targets, u.categoryId ∈ B.categories.map (·.id) := by
      intro u hu
      rw [hT0, catStep_targets] at hu
      rcases List.mem_append.mp hu with h | h
      · rw [hBids2]
        exact List.mem_append_left _ (h3 u h)
      · rw [hT0c u h]
        exact hfreshB
    obtain ⟨ids', hlen', himp', ⟨T', hT', hT'c⟩, hids', hnodup', hfresh', hkeys', hpairs',
      hother', hdays'⟩ := ih B h1B h2B h3B
    have hstep : cloneCatsPure db (pc :: rest) newDid = cloneCatsPure B rest newDid := rfl
    refine ⟨freshCatId db :: ids', ?_, ?_, ?_, ?_, ?_, ?_, ?_, ?_, ?_, ?_⟩
    · simp [hlen']
    · rw [hstep, himp', hBimp, catStep_importances]
    · refine ⟨T0 ++ T', ?_, ?_⟩
      · rw [hstep, hT', hT0, catStep_targets, List.append_assoc]
      · intro u hu
        rcases List.mem_append.mp hu with h | h
        · rw [hT0c u h]
          exact List.mem_cons_self _ _
        · exact List.mem_cons_of_mem _ (hT'c u h)
    · rw [hstep, hids', hBids2, List.append_assoc]
      rfl
    · rw [hstep]
      exact hnodup'
    · intro i hi
      rcases List.mem_cons.mp hi with h | h
      · subst h
        exact freshCatId_not_mem db
      · intro hmem
        exact hfresh' i h (by rw [hBids2]; exact List.mem_append_left _ hmem)
    · rw [hstep, hkeys', hBkeys, catStep_catKeys_self, List.append_assoc]
      rfl
    · intro p hp
      rcases List.mem_cons.mp hp with h | h
      · subst h
        have hne : freshCatId db ∉ ids' := by
          intro hmem
          exact hfresh' _ hmem hfreshB
        rw [hstep, hother' _ hne, hBself, hA_active,
          catStep_tuples db pc newDid (freshCatId db),
          targetTuples_nil db (freshCatId db) h3 (freshCatId_not_mem db)]
        rfl
      · obtain ⟨hp1, hp2⟩ := List.of_mem_zip h
        have hpid : p.2.id ∈ db.categories.map (·.id) := h2 p.2 (List.mem_cons_of_mem pc hp2)
        have hpne : p.2.id ≠ freshCatId db := by
          intro he
          exact freshCatId_not_mem db (he ▸ hpid)
        rw [hstep, hpairs' p h, hBactive _ hpne, catStep_active]
    · intro x hx
      have hx1 : x ≠ freshCatId db := by
        intro he
        exact hx (he ▸ List.mem_cons_self _ _)
      have hx2 : x ∉ ids' := fun h => hx (List.mem_cons_of_mem _ h)
      rw [hstep, hother' x hx2, hBother x hx1, catStep_tuples]
    · rw [hstep, hdays', hBdays, catStep_dayKeys]

theorem previous_day_append_today (db : DB) (todayDate : Nat) (d : ScoreDay)
    (hd : d.day = todayDate) :
    previous_day { db with days := db.days ++ [d] } todayDate = previous_day db todayDate := by
  unfold previous_day
  rw [show ({ db with days := db.days ++ [d] } : DB).days = db.days ++ [d] from rfl,
    List.filter_append]
  have h : ([d].filter (fun x => decide (x.day < todayDate) && !x.is_deleted)) = [] := by
    simp [hd]
  rw [h, List.append_nil]

theorem filter_day_nil_of_not_day (db : DB) (did : Nat)
    (hFKc : ∀ c ∈ db.categories, c.dayId ∈ db.days.map (·.id))
    (hdid : did ∉ db.days.map (·.id)) :
    ∀ c ∈ db.categories, c.dayId ≠ did := by
  intro c hc he
  exact hdid (he ▸ hFKc c hc)

theorem freshDayId_not_mem (db : DB) : freshDayId db ∉ db.days.map (·.id) :=
  fresh_not_mem (db.days.map (·.id))

theorem calcDayPure_bottom_up (db : DB) (did : Nat) :
    ∀ c2 ∈ activeCategories (calcDayPure db did) did,
      c2.score = some (categoryScoreValue (calcDayPure db did) c2.id) ∧
      c2.max_score = some (categoryMaxValue (calcDayPure db did) c2.id) := by
  intro c2 hc2
  rw [activeCategories_calcDayPure] at hc2
  obtain ⟨c0, hc0, hco⟩ := List.mem_map.mp hc2
  have hmem : c0.id ∈ activeIds db did := List.mem_map_of_mem (·.id) hc0
  have hup : updAllCats db (activeIds db did) c0 =
      { c0 with score := some (categoryScoreValue db c0.id),
                max_score := some (categoryMaxValue db c0.id) } := by
    unfold updAllCats
    simp [hmem]
  subst hco
  rw [hup]
  constructor
  · show some (categoryScoreValue db c0.id) = some (categoryScoreValue (calcDayPure db did) c0.id)
    rw [categoryScoreValue_congr (calcDayPure db did) db (calcDayPure_targets db did)
      (calcDayPure_importances db did) c0.id]
  · show some (categoryMaxValue db c0.id) = some (categoryMaxValue (calcDayPure db did) c0.id)
    rw [categoryMaxValue_congr (calcDayPure db did) db (calcDayPure_targets db did)
      (calcDayPure_importances db did) c0.id]

theorem findDay_append_fresh (db : DB) (row : ScoreDay) (hid : row.id = freshDayId db) :
    ({ db with days := db.days ++ [row] } : DB).findDay (freshDayId db) = some row := by
  unfold DB.findDay
  rw [show ({ db with days := db.days ++ [row] } : DB).days = db.days ++ [row] from rfl,
    List.find?_append]
  have h2 : db.days.find? (fun d => d.id == freshDayId db) = none := by
    rw [List.find?_eq_none]
    intro d hd
    simp only [beq_iff_eq]
    intro he
    exact freshDayId_not_mem db (he ▸ List.mem_map_of_mem (·.id) hd)
  rw [h2]
  simp [hid]

theorem findDay_exists_of_keys (dbA dbB : DB) (did : Nat) (d : ScoreDay)
    (hk : dbB.days.map dayKey = dbA.days.map dayKey)
    (h : dbA.findDay did = some d) :
    ∃ d', dbB.findDay did = some d' ∧ d'.id = did := by
  have hid : d.id = did := findDay_some_id dbA did d h
  have hmemA : d ∈ dbA.days := by
    unfold DB.findDay at h
    exact List.mem_of_find?_eq_some h
  have hidsA : did ∈ dbA.days.map (·.id) := by
    rw [← hid]
    exact List.mem_map_of_mem (·.id) hmemA
  have hproj : dbB.days.map (·.id) = dbA.days.map (·.id) := by
    have h1 : dbB.days.map (·.id) = (dbB.days.map dayKey).map (·.1) := by
      rw [List.map_map]
      rfl
    have h2 : dbA.days.map (·.id) = (dbA.days.map dayKey).map (·.1) := by
      rw [List.map_map]
      rfl
    rw [h1, h2, hk]
  have hidsB : did ∈ dbB.days.map (·.id) := by
    rw [hproj]
    exact hidsA
  obtain ⟨dB, hdB, hdBid⟩ := List.mem_map.mp hidsB
  have hsome : (dbB.days.find? (fun x => x.id == did)).isSome := by
    rw [List.find?_isSome]
    exact ⟨dB, hdB, by simp [hdBid]⟩
  obtain ⟨d', hd'⟩ := Option.isSome_iff_exists.mp hsome
  refine ⟨d', hd', ?_⟩
  have := List.find?_some hd'
  simpa using this

/-- C8: for a newly created day (no row with that date exists yet),
`get_or_create_today` clones each non-deleted category of the most
recent earlier non-deleted day — same name and description, all
clones non-deleted — and for each such category exactly the clone
tuples of its non-deleted targets: same name and importance
reference, `is_achieved` forced false; afterwards the new day is
fully recomputed, so every new category caches its freshly computed
scores and the day's cached scores are non-null.  Without an earlier
non-deleted day nothing is cloned and the new day's caches are 0. -/
theorem claimC8 (db : DB) (todayDate : Nat)
    (hWF : WF db) (hFK : FKok db)
    (hnew : db.days.find? (fun d => d.day == todayDate) = none) :
    ∃ db', get_or_create_day 2 db todayDate = some db' ∧
      (previous_day db todayDate = none →
        (catsOf db' (freshDayId db)).map catKey = [] ∧
        storedDayScore db' (freshDayId db) = some (some 0) ∧
        storedDayMax db' (freshDayId db) = some (some 0)) ∧
      (∀ prev, previous_day db todayDate = some prev →
        ∃ ids : List Nat,
          ids.length = (activeCategories db prev.id).length ∧
          (catsOf db' (freshDayId db)).map catKey =
            (ids.zip (activeCategories db prev.id)).map
              (fun p => (p.1, p.2.name, p.2.description, false)) ∧
          (∀ p ∈ ids.zip (activeCategories db prev.id),
            targetTuples db' p.1 = (activeTargets db p.2.id).map cloneTuple) ∧
          (∀ c ∈ activeCategories db' (freshDayId db),
            c.score = some (categoryScoreValue db' c.id) ∧
            c.max_score = some (categoryMaxValue db' c.id)) ∧
          (∃ sv mv, storedDayScore db' (freshDayId db) = some (some sv) ∧
            storedDayMax db' (freshDayId db) = some (some mv))) := by
  have hcats1 : catsOf { db with days := db.days ++
      [⟨freshDayId db, todayDate, none, none, none, none, false⟩] } (freshDayId db) = [] := by
    unfold catsOf
    apply List.filter_eq_nil_iff.mpr
    intro c hc
    simp only [beq_iff_eq]
    exact filter_day_nil_of_not_day db (freshDayId db) hFK.1 (freshDayId_not_mem db) c hc
  have hact1 : activeCategories { db with days := db.days ++
      [⟨freshDayId db, todayDate, none, none, none, none, false⟩] } (freshDayId db) = [] := by
    unfold activeCategories
    apply List.filter_eq_nil_iff.mpr
    intro c hc
    intro hcontra
    rw [Bool.and_eq_true, beq_iff_eq] at hcontra
    exact filter_day_nil_of_not_day db (freshDayId db) hFK.1 (freshDayId_not_mem db) c hc
      hcontra.1
  have hfind1 : ({ db with days := db.days ++
      [⟨freshDayId db, todayDate, none, none, none, none, false⟩] } : DB).findDay
        (freshDayId db) = some ⟨freshDayId db, todayDate, none, none, none, none, false⟩ :=
    findDay_append_fresh db _ rfl
  cases hprev : previous_day db todayDate with
  | none =>
    have hcopy : copy_previous_day_categories 2 { db with days := db.days ++
        [⟨freshDayId db, todayDate, none, none, none, none, false⟩] } (freshDayId db)
          todayDate = some { db with days := db.days ++
        [⟨freshDayId db, todayDate, none, none, none, none, false⟩] } := by
      unfold copy_previous_day_categories
      rw [previous_day_append_today db todayDate _ rfl, hprev]
    have hD : calculate_scoresD 2 { db with days := db.days ++
        [⟨freshDayId db, todayDate, none, none, none, none, false⟩] } (freshDayId db) =
        some (calcDayPure { db with days := db.days ++
          [⟨freshDayId db, todayDate, none, none, none, none, false⟩] } (freshDayId db)) :=
      calculate_scoresD_pure 0 _ _ hWF.1
    refine ⟨calcDayPure { db with days := db.days ++
        [⟨freshDayId db, todayDate, none, none, none, none, false⟩] } (freshDayId db),
      ?_, ?_, ?_⟩
    · show get_or_create_day 2 db todayDate = _
      unfold get_or_create_day
      rw [hnew, hcopy, Option.some_bind, hD]
    · intro _
      refine ⟨?_, ?_, ?_⟩
      · rw [catKeys_calcDayPure, hcats1]
        rfl
      · unfold storedDayScore
        rw [findDay_calcDayPure, hfind1, Option.map_some',
          updDay_eq_upd (freshDayId db) _ _
            ⟨freshDayId db, todayDate, none, none, none, none, false⟩ rfl]
        have hzero : dayScoreValue { db with days := db.days ++
            [⟨freshDayId db, todayDate, none, none, none, none, false⟩] } (freshDayId db) = 0 := by
          unfold dayScoreValue
          rw [hact1]
          rfl
        rw [hzero]
        rfl
      · unfold storedDayMax
        rw [findDay_calcDayPure, hfind1, Option.map_some',
          updDay_eq_upd (freshDayId db) _ _
            ⟨freshDayId db, todayDate, none, none, none, none, false⟩ rfl]
        have hzero : dayMaxValue { db with days := db.days ++
            [⟨freshDayId db, todayDate, none, none, none, none, false⟩] } (freshDayId db) = 0 := by
          unfold dayMaxValue
          rw [hact1]
          rfl
        rw [hzero]
        rfl
    · intro prev hprev2
      exact Option.noConfusion hprev2
  | some prev =>
    obtain ⟨ids, hlen', himp', ⟨T', hT', hT'c⟩, hids', hnodup', hfresh', hkeys', hpairs',
      hother', hdays'⟩ :=
      cloneCatsPure_spec (activeCategories db prev.id)
        { db with days := db.days ++
          [⟨freshDayId db, todayDate, none, none, none, none, false⟩] }
        (freshDayId db) hWF.1
        (fun pc hpc => List.mem_map_of_mem (·.id) (List.mem_of_mem_filter hpc))
        hFK.2
    have hclone : cloneCategories 2 { db with days := db.days ++
        [⟨freshDayId db, todayDate, none, none, none, none, false⟩] }
        (activeCategories db prev.id) (freshDayId db) =
        some (cloneCatsPure { db with days := db.days ++
          [⟨freshDayId db, todayDate, none, none, none, none, false⟩] }
          (activeCategories db prev.id) (freshDayId db)) :=
      cloneCategories_pure 0 _ _ _ hWF.1
    have hcopy : copy_previous_day_categories 2 { db with days := db.days ++
        [⟨freshDayId db, todayDate, none, none, none, none, false⟩] } (freshDayId db)
          todayDate = some (cloneCatsPure { db with days := db.days ++
          [⟨freshDayId db, todayDate, none, none, none, none, false⟩] }
          (activeCategories db prev.id) (freshDayId db)) := by
      unfold copy_previous_day_categories
      rw [previous_day_append_today db todayDate _ rfl, hprev]
      exact hclone
    have hD : calculate_scoresD 2 (cloneCatsPure { db with days := db.days ++
        [⟨freshDayId db, todayDate, none, none, none, none, false⟩] }
        (activeCategories db prev.id) (freshDayId db)) (freshDayId db) =
        some (calcDayPure (cloneCatsPure { db with days := db.days ++
          [⟨freshDayId db, todayDate, none, none, none, none, false⟩] }
          (activeCategories db prev.id) (freshDayId db)) (freshDayId db)) :=
      calculate_scoresD_pure 0 _ _ hnodup'
    refine ⟨calcDayPure (cloneCatsPure { db with days := db.days ++
        [⟨freshDayId db, todayDate, none, none, none, none, false⟩] }
        (activeCategories db prev.id) (freshDayId db)) (freshDayId db), ?_, ?_, ?_⟩
    · show get_or_create_day 2 db todayDate = _
      unfold get_or_create_day
      rw [hnew, hcopy, Option.some_bind, hD]
    · intro hcontra
      exact Option.noConfusion hcontra
    · intro prev2 hprev2
      have hprev3 := Option.some.inj hprev2
      subst hprev3
      refine ⟨ids, hlen', ?_, ?_, calcDayPure_bottom_up _ _, ?_⟩
      · rw [catKeys_calcDayPure, hkeys', hcats1]
        rfl
      · intro p hp
        rw [targetTuples_congr _ _ (calcDayPure_targets _ _) p.1]
        exact hpairs' p hp
      · obtain ⟨d', hd', hd'id⟩ := findDay_exists_of_keys _ _ (freshDayId db) _ hdays' hfind1
        refine ⟨dayScoreValue (cloneCatsPure { db with days := db.days ++
            [⟨freshDayId db, todayDate, none, none, none, none, false⟩] }
            (activeCategories db prev.id) (freshDayId db)) (freshDayId db),
          dayMaxValue (cloneCatsPure { db with days := db.days ++
            [⟨freshDayId db, todayDate, none, none, none, none, false⟩] }
            (activeCategories db prev.id) (freshDayId db)) (freshDayId db), ?_, ?_⟩
        · unfold storedDayScore
          rw [findDay_calcDayPure, hd', Option.map_some', updDay_eq_upd _ _ _ _ hd'id]
          rfl
        · unfold storedDayMax
          rw [findDay_calcDayPure, hd', Option.map_some', updDay_eq_upd _ _ _ _ hd'id]
          rfl

/-- Store for the C8 witness: one earlier day (date 10) with one
non-deleted category holding one achieved target; a day for date 11
is then created. -/
def dbC8 : DB :=
  { importances := [⟨1, "High", 5⟩],
    days := [⟨1, 10, some 5, some 5, none, none, false⟩],
    categories := [⟨1, 1, "Health", "d", some 5, some 5, false⟩],
    targets := [⟨1, "Run", 1, 1, true, false⟩] }

theorem claimC8_witness :
    WF dbC8 ∧ FKok dbC8 ∧
      dbC8.days.find? (fun d => d.day == 11) = none ∧
      previous_day dbC8 11 = some ⟨1, 10, some 5, some 5, none, none, false⟩ ∧
      (∃ db', get_or_create_day 2 dbC8 11 = some db' ∧
        (previous_day dbC8 11 = none →
          (catsOf db' (freshDayId dbC8)).map catKey = [] ∧
          storedDayScore db' (freshDayId dbC8) = some (some 0) ∧
          storedDayMax db' (freshDayId dbC8) = some (some 0)) ∧
        (∀ prev, previous_day dbC8 11 = some prev →
          ∃ ids : List Nat,
            ids.length = (activeCategories dbC8 prev.id).length ∧
            (catsOf db' (freshDayId dbC8)).map catKey =
              (ids.zip (activeCategories dbC8 prev.id)).map
                (fun p => (p.1, p.2.name, p.2.description, false)) ∧
            (∀ p ∈ ids.zip (activeCategories dbC8 prev.id),
              targetTuples db' p.1 = (activeTargets dbC8 p.2.id).map cloneTuple) ∧
            (∀ c ∈ activeCategories db' (freshDayId dbC8),
              c.score = some (categoryScoreValue db' c.id) ∧
              c.max_score = some (categoryMaxValue db' c.id)) ∧
            (∃ sv mv, storedDayScore db' (freshDayId dbC8) = some (some sv) ∧
              storedDayMax db' (freshDayId dbC8) = some (some mv)))) :=
  ⟨by decide, by decide, by decide, by decide, claimC8 dbC8 11 (by decide) (by decide) (by decide)⟩
